import Mathlib

/-!
Verification of the air-traffic-control TUI against its specification.

The Go sources are shallowly embedded: strings become lists of characters,
index-based loops become structural recursion, goroutine interleavings become
explicit event traces, and external effects (tmux invocations, database writes,
worktree shell-outs) are recorded as explicit data so that theorems can talk
about which commands a code path issues.
-/

namespace ATC

/-! ## Terminal handle: scrollback (internal/terminal/terminal.go) -/

/-- One scroll operation on a terminal handle: ScrollUp(lines) or
ScrollDown(lines).  The argument is the (non-negative) line count the TUI
passes (it always passes the literal 3). -/
inductive ScrollOp where
  | up (lines : Nat)
  | down (lines : Nat)
deriving DecidableEq

/-- Transition of the scrollLines field, translated from Terminal.ScrollUp and
Terminal.ScrollDown.  ScrollUp adds and clamps to the cached history size,
ScrollDown subtracts and clamps to 0.  scrollLines is a Go int, so it is
modelled as an integer; cachedHistSize is the cached history size. -/
def scrollStep (cachedHistSize : Nat) (scrollLines : Int) : ScrollOp → Int
  | ScrollOp.up n =>
      let s := scrollLines + n
      if s > (cachedHistSize : Int) then (cachedHistSize : Int) else s
  | ScrollOp.down n =>
      let s := scrollLines - n
      if s < 0 then 0 else s

/-- The scroll offset after a sequence of scroll calls, starting from a given
offset. -/
def scrollRun (cachedHistSize : Nat) (start : Int) (ops : List ScrollOp) : Int :=
  ops.foldl (scrollStep cachedHistSize) start

/-! ## Terminal handle: lifecycle and exit detection
(internal/terminal/terminal.go: pollLoop, Respawn, stopPollLoop, Close, Detach) -/

/-- The mutex-guarded handle fields relevant to lifecycle and exit delivery:
the paneDead flag and the closed flag (set by stopPollLoop). -/
structure TermState where
  paneDead : Bool
  closed : Bool
deriving DecidableEq

/-- A fresh handle as built by newTerminal (New path): both flags false. -/
def termInit : TermState := ⟨false, false⟩

/-- Messages the handle posts into the Bubble Tea program. -/
inductive TermMsg where
  | exited
deriving DecidableEq

/-- Atomic events on one handle.  The per-handle mutex makes each pollLoop
iteration's read-modify of paneDead atomic with respect to Respawn, Detach
and Close, so an interleaved execution is a sequence of these events. -/
inductive TermEvent where
  | tick (deadNow : Bool)
  | respawn (ok : Bool)
  | detach
  | close
deriving DecidableEq

/-- tmux commands issued by lifecycle operations. -/
inductive MuxCmd where
  | killSession
deriving DecidableEq

/-- One atomic step of the handle.  tick deadNow is one iteration of pollLoop
with deadNow the value display-message #(pane_dead) reports; respawn ok is a
Respawn call whose tmux respawn-pane either succeeded or failed; detach and
close are Detach and Close.  Each step returns the new state, the messages
posted, and the tmux commands issued. -/
def termStep (s : TermState) : TermEvent → TermState × List TermMsg × List MuxCmd
  | TermEvent.tick deadNow =>
      -- pollLoop body: when the handle is closed the done channel has been
      -- closed and the loop has returned, so no tick occurs (no-op).
      if s.closed then (s, [], [])
      else if deadNow then
        -- wasDead := t.paneDead; t.paneDead = true; send iff not wasDead
        ({ s with paneDead := true }, if s.paneDead then [] else [TermMsg.exited], [])
      else (s, [], [])
  | TermEvent.respawn ok =>
      -- Respawn: on tmux respawn-pane success the paneDead flag is cleared.
      if ok then ({ s with paneDead := false }, [], []) else (s, [], [])
  | TermEvent.detach =>
      -- Detach: stopPollLoop only; the tmux session keeps running.
      ({ s with closed := true }, [], [])
  | TermEvent.close =>
      -- Close: if stopPollLoop reports the loop was already stopped it
      -- returns nil WITHOUT killing the tmux session; otherwise it kills it.
      if s.closed then (s, [], [])
      else ({ s with closed := true }, [], [MuxCmd.killSession])

/-- Run a trace of events, accumulating posted messages and issued commands. -/
def termRun (s : TermState) : List TermEvent → TermState × List TermMsg × List MuxCmd
  | [] => (s, [], [])
  | e :: es =>
      let r := termStep s e
      let rest := termRun r.1 es
      (rest.1, r.2.1 ++ rest.2.1, r.2.2 ++ rest.2.2)

/-- Number of Exited messages posted along a trace. -/
def exitedCount (s : TermState) (es : List TermEvent) : Nat :=
  ((termRun s es).2.1.filter (· = TermMsg.exited)).length

/-- A trace that contains no successful Respawn, i.e. stays within one
child-process lifetime. -/
def respawnFree (es : List TermEvent) : Prop := TermEvent.respawn true ∉ es

instance : DecidablePred respawnFree := fun es =>
  inferInstanceAs (Decidable (TermEvent.respawn true ∉ es))

/-- The tmux commands a single lifecycle call issues. -/
def cmdsOf (s : TermState) (e : TermEvent) : List MuxCmd := (termStep s e).2.2

/-! ## Session service: CreateSession (internal/session/service.go and the
same method in the revision carrying baseBranch/useExistingBranch) -/

/-- Outcomes of the external collaborators a CreateSession call consults, in
the order the code consults them. -/
structure CreateEnv where
  /-- worktree.ValidateBranchName name succeeds -/
  validName : Bool
  /-- db.GetSessionByName finds an existing session row -/
  nameExists : Bool
  /-- db.GetSessionByBranchName returns an error (consulted only with
  useExistingBranch) -/
  branchCheckErr : Bool
  /-- db.GetSessionByBranchName finds a session for the branch -/
  branchHasSession : Bool
  /-- worktree.CreateWorktree succeeds -/
  worktreeOk : Bool
  /-- config.Load succeeds -/
  configOk : Bool
  /-- cfg.SetupWorktree, the setup commands from the config file -/
  setupCmds : List String
  /-- worktree.RunSetupCommands succeeds -/
  setupOk : Bool
  /-- db.InsertSession succeeds -/
  insertOk : Bool
  /-- the best-effort worktree.DeleteWorktree rollback succeeds -/
  deleteOk : Bool

/-- What a CreateSession call did by the time it returns. -/
structure CreateResult where
  /-- the call returned a session rather than an error -/
  ok : Bool
  /-- worktree.CreateWorktree was called and succeeded -/
  worktreeCreated : Bool
  /-- the rollback cleanup (worktree.DeleteWorktree) was invoked -/
  cleanupInvoked : Bool
  /-- the session row is in the database at return -/
  rowInserted : Bool
  /-- worktree.RunSetupCommands was executed during the call -/
  setupRan : Bool
deriving DecidableEq

/-- Service.CreateSession, translated from the source: validate the name,
reject duplicates, create the worktree, load the config, run the setup
commands (inside the call, before any insert), then insert the row; any
failure after worktree creation invokes the cleanupWorktree rollback. -/
def createSession (useExistingBranch : Bool) (env : CreateEnv) : CreateResult :=
  if !env.validName then
    ⟨false, false, false, false, false⟩
  else if env.nameExists then
    ⟨false, false, false, false, false⟩
  else if useExistingBranch && env.branchCheckErr then
    ⟨false, false, false, false, false⟩
  else if useExistingBranch && env.branchHasSession then
    ⟨false, false, false, false, false⟩
  else if !env.worktreeOk then
    ⟨false, false, false, false, false⟩
  else if !env.configOk then
    ⟨false, true, true, false, false⟩
  else if !env.setupCmds.isEmpty && !env.setupOk then
    ⟨false, true, true, false, true⟩
  else if !env.insertOk then
    ⟨false, true, true, false, !env.setupCmds.isEmpty⟩
  else
    ⟨true, true, false, true, !env.setupCmds.isEmpty⟩

/-- Whether the worktree directory exists when the call returns: it was
created, and not successfully removed by an invoked rollback. -/
def worktreeExists (r : CreateResult) (env : CreateEnv) : Bool :=
  r.worktreeCreated && !(r.cleanupInvoked && env.deleteOk)

/-! ## Key translation (internal/terminal/terminal.go: keyMsgToTmuxArgs,
keyByte, keySequence)

Bubble Tea key types, restricted to the values the adapter handles.  In
Bubble Tea, KeyCtrlI and KeyCtrlM are the same numeric constants as KeyTab
and KeyEnter, so they are not separate constructors here: the overlap is
resolved in favor of the named keys exactly as in the Go type. -/

inductive KeyType where
  | runes
  | enter | backspace | tab | shiftTab | escape | space
  | up | down | right | left
  | shiftUp | shiftDown | shiftLeft | shiftRight
  | ctrlUp | ctrlDown | ctrlLeft | ctrlRight
  | ctrlShiftUp | ctrlShiftDown | ctrlShiftLeft | ctrlShiftRight
  | home | endKey | shiftHome | shiftEnd | ctrlHome | ctrlEnd
  | ctrlShiftHome | ctrlShiftEnd
  | insert | delete | pgUp | pgDown | ctrlPgUp | ctrlPgDown
  | f1 | f2 | f3 | f4 | f5 | f6 | f7 | f8 | f9 | f10
  | f11 | f12 | f13 | f14 | f15 | f16 | f17 | f18 | f19 | f20
  | ctrlA | ctrlB | ctrlC | ctrlD | ctrlE | ctrlF | ctrlG | ctrlH
  | ctrlJ | ctrlK | ctrlL | ctrlN | ctrlO | ctrlP | ctrlQ | ctrlR
  | ctrlS | ctrlT | ctrlU | ctrlV | ctrlW | ctrlX | ctrlY | ctrlZ
deriving DecidableEq

/-- A Bubble Tea KeyMsg as the adapter consumes it. -/
structure KeyMsg where
  type : KeyType
  runes : String
  alt : Bool

/-- keyByte: the raw byte for single-byte key types, or 0 for key types that
correspond to multi-byte escape sequences. -/
def keyByte : KeyType → Nat
  | KeyType.enter => 13
  | KeyType.tab => 9
  | KeyType.backspace => 0x7f
  | KeyType.escape => 0x1b
  | KeyType.space => 32
  | KeyType.ctrlA => 1
  | KeyType.ctrlB => 2
  | KeyType.ctrlC => 3
  | KeyType.ctrlD => 4
  | KeyType.ctrlE => 5
  | KeyType.ctrlF => 6
  | KeyType.ctrlG => 7
  | KeyType.ctrlH => 8
  | KeyType.ctrlJ => 10
  | KeyType.ctrlK => 11
  | KeyType.ctrlL => 12
  | KeyType.ctrlN => 14
  | KeyType.ctrlO => 15
  | KeyType.ctrlP => 16
  | KeyType.ctrlQ => 17
  | KeyType.ctrlR => 18
  | KeyType.ctrlS => 19
  | KeyType.ctrlT => 20
  | KeyType.ctrlU => 21
  | KeyType.ctrlV => 22
  | KeyType.ctrlW => 23
  | KeyType.ctrlX => 24
  | KeyType.ctrlY => 25
  | KeyType.ctrlZ => 26
  | _ => 0

/-- keySequence: the raw xterm escape sequence for multi-byte key types, or
the empty string if unknown. -/
def keySequence : KeyType → String
  | KeyType.up => "\x1b[A"
  | KeyType.down => "\x1b[B"
  | KeyType.right => "\x1b[C"
  | KeyType.left => "\x1b[D"
  | KeyType.shiftUp => "\x1b[1;2A"
  | KeyType.shiftDown => "\x1b[1;2B"
  | KeyType.shiftRight => "\x1b[1;2C"
  | KeyType.shiftLeft => "\x1b[1;2D"
  | KeyType.ctrlUp => "\x1b[1;5A"
  | KeyType.ctrlDown => "\x1b[1;5B"
  | KeyType.ctrlRight => "\x1b[1;5C"
  | KeyType.ctrlLeft => "\x1b[1;5D"
  | KeyType.ctrlShiftUp => "\x1b[1;6A"
  | KeyType.ctrlShiftDown => "\x1b[1;6B"
  | KeyType.ctrlShiftRight => "\x1b[1;6C"
  | KeyType.ctrlShiftLeft => "\x1b[1;6D"
  | KeyType.home => "\x1b[H"
  | KeyType.endKey => "\x1b[F"
  | KeyType.shiftHome => "\x1b[1;2H"
  | KeyType.shiftEnd => "\x1b[1;2F"
  | KeyType.ctrlHome => "\x1b[1;5H"
  | KeyType.ctrlEnd => "\x1b[1;5F"
  | KeyType.ctrlShiftHome => "\x1b[1;6H"
  | KeyType.ctrlShiftEnd => "\x1b[1;6F"
  | KeyType.insert => "\x1b[2~"
  | KeyType.delete => "\x1b[3~"
  | KeyType.pgUp => "\x1b[5~"
  | KeyType.pgDown => "\x1b[6~"
  | KeyType.ctrlPgUp => "\x1b[5;5~"
  | KeyType.ctrlPgDown => "\x1b[6;5~"
  | KeyType.f1 => "\x1bOP"
  | KeyType.f2 => "\x1bOQ"
  | KeyType.f3 => "\x1bOR"
  | KeyType.f4 => "\x1bOS"
  | KeyType.f5 => "\x1b[15~"
  | KeyType.f6 => "\x1b[17~"
  | KeyType.f7 => "\x1b[18~"
  | KeyType.f8 => "\x1b[19~"
  | KeyType.f9 => "\x1b[20~"
  | KeyType.f10 => "\x1b[21~"
  | KeyType.f11 => "\x1b[23~"
  | KeyType.f12 => "\x1b[24~"
  | KeyType.f13 => "\x1b[25~"
  | KeyType.f14 => "\x1b[26~"
  | KeyType.f15 => "\x1b[28~"
  | KeyType.f16 => "\x1b[29~"
  | KeyType.f17 => "\x1b[31~"
  | KeyType.f18 => "\x1b[32~"
  | KeyType.f19 => "\x1b[33~"
  | KeyType.f20 => "\x1b[34~"
  | _ => ""

/-- The tmux named-key vocabulary switch from keyMsgToTmuxArgs; the empty
result for KeyRunes (no case) makes the function return nil. -/
def tmuxKeyName : KeyType → String
  | KeyType.enter => "Enter"
  | KeyType.backspace => "BSpace"
  | KeyType.tab => "Tab"
  | KeyType.shiftTab => "BTab"
  | KeyType.escape => "Escape"
  | KeyType.space => "Space"
  | KeyType.up => "Up"
  | KeyType.down => "Down"
  | KeyType.right => "Right"
  | KeyType.left => "Left"
  | KeyType.shiftUp => "S-Up"
  | KeyType.shiftDown => "S-Down"
  | KeyType.shiftLeft => "S-Left"
  | KeyType.shiftRight => "S-Right"
  | KeyType.ctrlUp => "C-Up"
  | KeyType.ctrlDown => "C-Down"
  | KeyType.ctrlLeft => "C-Left"
  | KeyType.ctrlRight => "C-Right"
  | KeyType.ctrlShiftUp => "C-S-Up"
  | KeyType.ctrlShiftDown => "C-S-Down"
  | KeyType.ctrlShiftLeft => "C-S-Left"
  | KeyType.ctrlShiftRight => "C-S-Right"
  | KeyType.home => "Home"
  | KeyType.endKey => "End"
  | KeyType.shiftHome => "S-Home"
  | KeyType.shiftEnd => "S-End"
  | KeyType.ctrlHome => "C-Home"
  | KeyType.ctrlEnd => "C-End"
  | KeyType.ctrlShiftHome => "C-S-Home"
  | KeyType.ctrlShiftEnd => "C-S-End"
  | KeyType.insert => "IC"
  | KeyType.delete => "DC"
  | KeyType.pgUp => "PPage"
  | KeyType.pgDown => "NPage"
  | KeyType.ctrlPgUp => "C-PPage"
  | KeyType.ctrlPgDown => "C-NPage"
  | KeyType.f1 => "F1"
  | KeyType.f2 => "F2"
  | KeyType.f3 => "F3"
  | KeyType.f4 => "F4"
  | KeyType.f5 => "F5"
  | KeyType.f6 => "F6"
  | KeyType.f7 => "F7"
  | KeyType.f8 => "F8"
  | KeyType.f9 => "F9"
  | KeyType.f10 => "F10"
  | KeyType.f11 => "F11"
  | KeyType.f12 => "F12"
  | KeyType.f13 => "F13"
  | KeyType.f14 => "F14"
  | KeyType.f15 => "F15"
  | KeyType.f16 => "F16"
  | KeyType.f17 => "F17"
  | KeyType.f18 => "F18"
  | KeyType.f19 => "F19"
  | KeyType.f20 => "F20"
  | KeyType.ctrlA => "C-a"
  | KeyType.ctrlB => "C-b"
  | KeyType.ctrlC => "C-c"
  | KeyType.ctrlD => "C-d"
  | KeyType.ctrlE => "C-e"
  | KeyType.ctrlF => "C-f"
  | KeyType.ctrlG => "C-g"
  | KeyType.ctrlH => "C-h"
  | KeyType.ctrlJ => "C-j"
  | KeyType.ctrlK => "C-k"
  | KeyType.ctrlL => "C-l"
  | KeyType.ctrlN => "C-n"
  | KeyType.ctrlO => "C-o"
  | KeyType.ctrlP => "C-p"
  | KeyType.ctrlQ => "C-q"
  | KeyType.ctrlR => "C-r"
  | KeyType.ctrlS => "C-s"
  | KeyType.ctrlT => "C-t"
  | KeyType.ctrlU => "C-u"
  | KeyType.ctrlV => "C-v"
  | KeyType.ctrlW => "C-w"
  | KeyType.ctrlX => "C-x"
  | KeyType.ctrlY => "C-y"
  | KeyType.ctrlZ => "C-z"
  | KeyType.runes => ""

/-- keyMsgToTmuxArgs translated from the source; none corresponds to the Go
function returning nil, in which case SendKeys issues no tmux invocation.
A some result is exactly one tmux invocation with the given argument
list. -/
def keyMsgToTmuxArgs (socket sess : String) (msg : KeyMsg) : Option (List String) :=
  let base := ["-L", socket, "send-keys", "-t", sess]
  if msg.type = KeyType.runes ∧ msg.alt then
    some (base ++ ["-l", "\x1b" ++ msg.runes])
  else if msg.type = KeyType.runes then
    some (base ++ ["-l", msg.runes])
  else if msg.alt ∧ keyByte msg.type ≠ 0 then
    some (base ++ ["-l", "\x1b" ++ String.mk [Char.ofNat (keyByte msg.type)]])
  else if tmuxKeyName msg.type = "" then
    none
  else if msg.alt ∧ keySequence msg.type ≠ "" then
    some (base ++ ["-l", "\x1b" ++ keySequence msg.type])
  else
    some (base ++ [tmuxKeyName msg.type])

/-- The encoding the claim assigns to an Alt-modified key: the rune string
for Runes, the single byte for single-byte kinds, the raw xterm escape
sequence for multi-byte named keys. -/
def altEncoding (t : KeyType) (rs : String) : String :=
  if t = KeyType.runes then rs
  else if keyByte t ≠ 0 then String.mk [Char.ofNat (keyByte t)]
  else keySequence t

/-! ## Mouse selection release and clipboard copy
(internal/tui/app.go: handleMouseMsg release case, copySelectionToClipboard) -/

/-- How copied text leaves the process: piped to an external clipboard
command, or written to the controlling TTY as a terminal escape. -/
inductive ClipboardSink where
  | execCmd (prog : String) (args : List String) (stdin : String)
  | ttyWrite (data : String)
deriving DecidableEq

/-- copySelectionToClipboard translated from the source: empty text is a
no-op; otherwise the text is piped to pbcopy on darwin and to
xclip -selection clipboard on linux; other platforms do nothing. -/
def copySelectionToClipboard (goos text : String) : Option ClipboardSink :=
  if text = "" then none
  else if goos = "darwin" then some (ClipboardSink.execCmd "pbcopy" [] text)
  else if goos = "linux" then
    some (ClipboardSink.execCmd "xclip" ["-selection", "clipboard"] text)
  else none

/-- UTF-8 encoding of one character. -/
def utf8Bytes (c : Char) : List Nat :=
  let n := c.toNat
  if n < 0x80 then [n]
  else if n < 0x800 then [0xC0 + n / 0x40, 0x80 + n % 0x40]
  else if n < 0x10000 then
    [0xE0 + n / 0x1000, 0x80 + n / 0x40 % 0x40, 0x80 + n % 0x40]
  else
    [0xF0 + n / 0x40000, 0x80 + n / 0x1000 % 0x40, 0x80 + n / 0x40 % 0x40,
      0x80 + n % 0x40]

/-- The base64 alphabet. -/
def b64Char (i : Nat) : Char :=
  ("ABCDEFGHIJKLMNOPQRSTUVWXYZabcdefghijklmnopqrstuvwxyz0123456789+/".data).getD i
    (Char.ofNat 65)

/-- Standard base64 with padding over a byte list. -/
def base64Encode : List Nat → List Char
  | b1 :: b2 :: b3 :: rest =>
      b64Char (b1 / 4) :: b64Char (b1 % 4 * 16 + b2 / 16) ::
        b64Char (b2 % 16 * 4 + b3 / 64) :: b64Char (b3 % 64) ::
        base64Encode rest
  | [b1, b2] =>
      [b64Char (b1 / 4), b64Char (b1 % 4 * 16 + b2 / 16),
        b64Char (b2 % 16 * 4), Char.ofNat 61]
  | [b1] => [b64Char (b1 / 4), b64Char (b1 % 4 * 16), Char.ofNat 61, Char.ofNat 61]
  | [] => []

/-- Modelled from the spec: the OSC 52 clipboard escape
ESC ] 52 ; c ; base64(text) BEL that the specification says is written to
the controlling TTY.  (No such code exists in the repository; the actual
copy path shells out to pbcopy/xclip.) -/
def osc52Sequence (text : String) : String :=
  "\x1b]52;c;" ++ String.mk (base64Encode (text.data.flatMap utf8Bytes)) ++ "\x07"

/-- The fixed sidebar visual width (internal/tui: sidebarWidth = 36). -/
def sidebarWidth : Nat := 36

/-- The selection column a release at screen x maps to: subtract the sidebar
width plus the one-column spacer, clamp into [0, tw). -/
def releaseCol (x tw : Int) : Int :=
  let col := x - ((sidebarWidth : Int) + 1)
  let col := if col < 0 then 0 else col
  if col ≥ tw then tw - 1 else col

/-- The selection row a release at screen y maps to: empirical +1 offset,
clamp into [0, th). -/
def releaseRow (y th : Int) : Int :=
  let row := y + 1
  let row := if row < 0 then 0 else row
  if row ≥ th then th - 1 else row

/-- The transient selection state of the model. -/
structure SelState where
  selecting : Bool
  selStartRow : Int
  selStartCol : Int
  selEndRow : Int
  selEndCol : Int
  hasSelection : Bool
deriving DecidableEq

/-- The MouseActionRelease case of handleMouseMsg, translated from the
source.  selectedText stands for m.getSelectedText(): the plain text of the
finalized selection.  Returns the new selection state and the clipboard
action taken. -/
def handleMouseRelease (m : SelState) (x y tw th : Int) (goos selectedText : String) :
    SelState × Option ClipboardSink :=
  if m.selecting then
    let col := releaseCol x tw
    let row := releaseRow y th
    if m.selStartRow ≠ row ∨ m.selStartCol ≠ col then
      (⟨false, m.selStartRow, m.selStartCol, row, col, true⟩,
        copySelectionToClipboard goos selectedText)
    else
      (⟨false, m.selStartRow, m.selStartCol, row, col, false⟩, none)
  else (m, none)

/-! ## ANSI byte-stream core (internal/tui/app.go)

Go strings are modelled as lists of characters.  The Go code walks bytes,
but every byte it inspects individually is ASCII (ESC, brackets, digits,
semicolons, letters), and multi-byte UTF-8 runes are copied whole, so the
character-level model is faithful. -/

/-- The characters the stripANSI regular expression accepts between ESC [
and the final letter. -/
def isStripParam (c : Char) : Bool := c = ';' || ('0' ≤ c && c ≤ '9')

/-- ASCII letters, the final bytes the stripANSI regular expression
accepts. -/
def isAsciiLetter (c : Char) : Bool :=
  ('A' ≤ c && c ≤ 'Z') || ('a' ≤ c && c ≤ 'z')

/-- CSI parameter/intermediate bytes, 0x20-0x3F. -/
def isCsiParam (c : Char) : Bool := 0x20 ≤ c.toNat && c.toNat ≤ 0x3F

/-- Escape intermediate bytes, 0x20-0x2F. -/
def isEscInter (c : Char) : Bool := 0x20 ≤ c.toNat && c.toNat ≤ 0x2F

/-- The fueled scanner of stripANSI.  The fuel only serves to make the
recursion structural (every call site passes fuel at least the length of
the list, and every step consumes at least one character, so the
fuel-exhausted branch is unreachable). -/
def stripANSIF : Nat → List Char → List Char
  | 0, l => l
  | _ + 1, [] => []
  | fuel + 1, c :: rest =>
    if c = '\x1b' then
      match rest with
      | [] => ['\x1b']
      | d :: r2 =>
        if d = '[' then
          match r2.dropWhile isStripParam with
          | f :: r3 =>
            if isAsciiLetter f then stripANSIF fuel r3
            else c :: stripANSIF fuel (d :: r2)
          | [] => c :: stripANSIF fuel (d :: r2)
        else if d = '(' then
          match r2 with
          | f :: r3 =>
            if isAsciiLetter f then stripANSIF fuel r3
            else c :: stripANSIF fuel (d :: r2)
          | [] => c :: stripANSIF fuel (d :: r2)
        else c :: stripANSIF fuel (d :: r2)
    else c :: stripANSIF fuel rest

/-- stripANSI: ansiRegex.ReplaceAllString(s, "") for the regular expression
ESC Lbrack [0-9;]* [a-zA-Z] | ESC ( [A-Za-z].  Matches can only start at an
ESC; at each ESC the greedy digit/semicolon run must be followed by a
letter, otherwise no match starts there and scanning resumes at the next
character. -/
def stripANSI (l : List Char) : List Char := stripANSIF l.length l

/-- ansiEscapeEnd from the source, phrased as a splitter: given the
characters after an ESC, return the rest of the escape sequence (excluding
the ESC) and the remainder.  CSI: consume the bracket, everything up to the
first ASCII letter, and that letter; charset: consume the parenthesis and
one character; anything else: consume nothing beyond the ESC. -/
def ansiEscapeSplit (l : List Char) : List Char × List Char :=
  match l with
  | [] => ([], [])
  | d :: r2 =>
    if d = '[' then
      match r2.dropWhile (fun x => !isAsciiLetter x) with
      | f :: r3 => (d :: (r2.takeWhile (fun x => !isAsciiLetter x) ++ [f]), r3)
      | [] => (d :: r2.takeWhile (fun x => !isAsciiLetter x), [])
    else if d = '(' then
      match r2 with
      | c :: r3 => ([d, c], r3)
      | [] => ([d], [])
    else ([], d :: r2)

/-- Fueled truncateAnsi walk. -/
def truncateAnsiF : Nat → List Char → Nat → List Char
  | 0, _, _ => []
  | _ + 1, [], _ => []
  | _ + 1, _ :: _, 0 => []
  | fuel + 1, c :: rest, n + 1 =>
    if c = '\x1b' && !rest.isEmpty then
      ('\x1b' :: (ansiEscapeSplit rest).1) ++
        truncateAnsiF fuel (ansiEscapeSplit rest).2 (n + 1)
    else c :: truncateAnsiF fuel rest n

/-- truncateAnsi: the first maxWidth visible characters of s, preserving
the ANSI escape sequences encountered along the way. -/
def truncateAnsi (l : List Char) (maxWidth : Nat) : List Char :=
  truncateAnsiF l.length l maxWidth

/-- Fueled skipAnsi walk. -/
def skipAnsiF : Nat → List Char → Nat → List Char
  | 0, l, _ => l
  | _ + 1, [], _ => []
  | _ + 1, l, 0 => l
  | fuel + 1, c :: rest, n + 1 =>
    if c = '\x1b' && !rest.isEmpty then
      skipAnsiF fuel (ansiEscapeSplit rest).2 (n + 1)
    else skipAnsiF fuel rest n

/-- skipAnsi: drop the first skip visible characters of s and return the
remainder. -/
def skipAnsi (l : List Char) (skip : Nat) : List Char := skipAnsiF l.length l skip

/-- The reverse-video on/off escapes used by selection highlighting. -/
def revOn : List Char := '\x1b' :: '[' :: '7' :: ['m']

/-- Reverse-video off. -/
def revOff : List Char := '\x1b' :: '[' :: '2' :: '7' :: ['m']

/-- applyReverseVideoToLine's fueled walk: insert reverse-video escapes
around visible columns startCol..endCol (inclusive); visCol tracks the
current visible column and inReverse whether the reverse-video escape is
open. -/
def reverseLoopF (startCol endCol : Int) : Nat → Int → Bool → List Char → List Char
  | 0, _, inReverse, l => if inReverse then revOff ++ l else l
  | _ + 1, _, inReverse, [] => if inReverse then revOff else []
  | fuel + 1, visCol, inReverse, c :: rest =>
    if c = '\x1b' && !rest.isEmpty then
      ('\x1b' :: (ansiEscapeSplit rest).1) ++
        reverseLoopF startCol endCol fuel visCol inReverse (ansiEscapeSplit rest).2
    else
      let enter := !inReverse && startCol ≤ visCol && visCol ≤ endCol
      let pre := if enter then revOn else []
      let inR := inReverse || enter
      let leave := inR && endCol < visCol + 1
      let post := if leave then revOff else []
      pre ++ c :: post ++
        reverseLoopF startCol endCol fuel (visCol + 1) (inR && !leave) rest

/-- applyReverseVideoToLine from the source. -/
def applyReverseVideoToLine (line : List Char) (startCol endCol : Int) :
    List Char :=
  reverseLoopF startCol endCol line.length 0 false line

/-- strings.Split on a single separator character. -/
def splitOnChar (sep : Char) : List Char → List (List Char)
  | [] => [[]]
  | c :: rest =>
    if c = sep then [] :: splitOnChar sep rest
    else
      match splitOnChar sep rest with
      | [] => [[c]]
      | h :: t => (c :: h) :: t

/-- strings.Join with a single separator character. -/
def joinChar (sep : Char) (ls : List (List Char)) : List Char :=
  List.intercalate [sep] ls

/-! ## ANSI color transformations (the tui package files defining
dimANSIColors/transformSGR and applyHighlightToLine/updateColorState) -/

/-- strconv.Atoi: optional sign followed by at least one digit.  (Go
additionally range-checks against 64-bit ints; the callers here feed it
screen-capture SGR parameters, far below that bound, so the unbounded
integer model is faithful on every input the program can see.) -/
def goAtoiDigits (ds : List Char) : Option Nat :=
  if ds = [] ∨ ¬ds.all (fun c => '0' ≤ c && c ≤ '9') then none
  else some (ds.foldl (fun a c => a * 10 + (c.toNat - 48)) 0)

def goAtoi (s : List Char) : Option Int :=
  match s with
  | [] => none
  | c :: ds =>
    if c = '+' then (goAtoiDigits ds).map fun n => (n : Int)
    else if c = '-' then (goAtoiDigits ds).map fun n => -(n : Int)
    else (goAtoiDigits (c :: ds)).map fun n => (n : Int)

/-- Decimal digits of a natural number, most significant first (fueled). -/
def natDigitsF : Nat → Nat → List Char
  | 0, _ => []
  | fuel + 1, n =>
    if n < 10 then [Char.ofNat (48 + n)]
    else natDigitsF fuel (n / 10) ++ [Char.ofNat (48 + n % 10)]

/-- strconv.Itoa. -/
def itoa (n : Int) : List Char :=
  if n < 0 then '-' :: natDigitsF (-n).toNat.succ (-n).toNat
  else natDigitsF n.toNat.succ n.toNat

/-- The dim/lighten factor, an exact rational num/den standing for the Go
float64 factor (the program uses 0.4 and 0.35; both are exactly
representable in this model, and the Go float computations on the palette
values stay far from rounding boundaries). -/
structure Factor where
  num : Int
  den : Nat
deriving DecidableEq

/-- Go conversion int(x * factor): truncation toward zero of the exact
rational product. -/
def goInt (x : Int) (f : Factor) : Int := Int.tdiv (x * f.num) (f.den : Int)

/-- dimRGB from the source: each channel is multiplied by the factor and
truncated. -/
def dimRGB (r g b : Int) (factor : Factor) : Int × Int × Int :=
  (goInt r factor, goInt g factor, goInt b factor)

/-- lightenRGB from the source: blend each channel toward white. -/
def lightenRGB (r g b : Int) (factor : Factor) : Int × Int × Int :=
  (r + goInt (255 - r) factor, g + goInt (255 - g) factor,
   b + goInt (255 - b) factor)

/-- ansi16Colors: the standard 16 ANSI colors (xterm defaults). -/
def ansi16Colors : List (Int × Int × Int) :=
  [(0, 0, 0), (205, 0, 0), (0, 205, 0), (205, 205, 0),
   (0, 0, 238), (205, 0, 205), (0, 205, 205), (229, 229, 229),
   (127, 127, 127), (255, 0, 0), (0, 255, 0), (255, 255, 0),
   (92, 92, 255), (255, 0, 255), (0, 255, 255), (255, 255, 255)]

/-- Palette lookup (Go array indexing; all source call sites are in
range). -/
def palette (i : Int) : Int × Int × Int := ansi16Colors.getD i.toNat (0, 0, 0)

/-- cubeValue from the source. -/
def cubeValue (i : Int) : Int := if i = 0 then 0 else 55 + i * 40

/-- color256ToRGB from the source. -/
def color256ToRGB (n : Int) : Int × Int × Int :=
  if n < 0 ∨ n > 255 then (0, 0, 0)
  else if n < 16 then palette n
  else if n < 232 then
    let m := n - 16
    let b := m % 6
    let g := m / 6 % 6
    let r := m / 36
    (cubeValue r, cubeValue g, cubeValue b)
  else
    let v := 8 + (n - 232) * 10
    (v, v, v)

/-- The digits of the dim default foreground rgb(91,100,109)
re-applied after resets. -/
def dimDefaultParams : List (List Char) :=
  [itoa 38, itoa 2, itoa 91, itoa 100, itoa 109]

/-- transformSGR's walk over the split parameter list (the Go for-loop with
its variable-stride index); fueled to keep the recursion structural. -/
def transformSGRGoF (factor : Factor) : Nat → List (List Char) → List (List Char)
  | 0, ps => ps
  | _ + 1, [] => []
  | fuel + 1, p :: rest =>
    match goAtoi p with
    | none => p :: transformSGRGoF factor fuel rest
    | some code =>
      if code = 0 then
        itoa 0 :: dimDefaultParams ++ transformSGRGoF factor fuel rest
      else if code = 39 then
        dimDefaultParams ++ transformSGRGoF factor fuel rest
      else if code = 49 then
        p :: transformSGRGoF factor fuel rest
      else if code = 38 ∨ code = 48 then
        -- extended color; with no following part Go falls to the default
        -- passthrough, which for an empty tail emits just p
        match rest with
        | [] => [p]
        | p1 :: pr :: pg :: pb :: r4 =>
          let next := (goAtoi p1).getD 0
          if next = 2 then
            let rgb := dimRGB ((goAtoi pr).getD 0) ((goAtoi pg).getD 0)
              ((goAtoi pb).getD 0) factor
            p :: p1 :: itoa rgb.1 :: itoa rgb.2.1 :: itoa rgb.2.2 ::
              transformSGRGoF factor fuel r4
          else if next = 5 then
            let c := color256ToRGB ((goAtoi pr).getD 0)
            let rgb := dimRGB c.1 c.2.1 c.2.2 factor
            p :: p1 :: itoa rgb.1 :: itoa rgb.2.1 :: itoa rgb.2.2 ::
              transformSGRGoF factor fuel (pg :: pb :: r4)
          else p :: transformSGRGoF factor fuel (p1 :: pr :: pg :: pb :: r4)
        | p1 :: pn :: r3 =>
          let next := (goAtoi p1).getD 0
          if next = 5 then
            let c := color256ToRGB ((goAtoi pn).getD 0)
            let rgb := dimRGB c.1 c.2.1 c.2.2 factor
            p :: p1 :: itoa rgb.1 :: itoa rgb.2.1 :: itoa rgb.2.2 ::
              transformSGRGoF factor fuel r3
          else p :: transformSGRGoF factor fuel (p1 :: pn :: r3)
        | [p1] => p :: transformSGRGoF factor fuel [p1]
      else if 30 ≤ code ∧ code ≤ 37 then
        let c := palette (code - 30)
        let rgb := dimRGB c.1 c.2.1 c.2.2 factor
        itoa 38 :: itoa 2 :: itoa rgb.1 :: itoa rgb.2.1 :: itoa rgb.2.2 ::
          transformSGRGoF factor fuel rest
      else if 40 ≤ code ∧ code ≤ 47 then
        let c := palette (code - 40)
        let rgb := dimRGB c.1 c.2.1 c.2.2 factor
        itoa 48 :: itoa 2 :: itoa rgb.1 :: itoa rgb.2.1 :: itoa rgb.2.2 ::
          transformSGRGoF factor fuel rest
      else if 90 ≤ code ∧ code ≤ 97 then
        let c := palette (code - 90 + 8)
        let rgb := dimRGB c.1 c.2.1 c.2.2 factor
        itoa 38 :: itoa 2 :: itoa rgb.1 :: itoa rgb.2.1 :: itoa rgb.2.2 ::
          transformSGRGoF factor fuel rest
      else if 100 ≤ code ∧ code ≤ 107 then
        let c := palette (code - 100 + 8)
        let rgb := dimRGB c.1 c.2.1 c.2.2 factor
        itoa 48 :: itoa 2 :: itoa rgb.1 :: itoa rgb.2.1 :: itoa rgb.2.2 ::
          transformSGRGoF factor fuel rest
      else p :: transformSGRGoF factor fuel rest

/-- transformSGR from the source: empty parameters mean reset, otherwise
split on semicolons, transform, and re-join. -/
def transformSGR (factor : Factor) (ps : List Char) : List Char :=
  if ps = [] then "0;38;2;91;100;109".data
  else
    joinChar ';'
      (transformSGRGoF factor (splitOnChar ';' ps).length (splitOnChar ';' ps))

/-- A complete SGR escape sequence with the given parameter bytes. -/
def sgrSeq (P : List Char) : List Char := '\x1b' :: '[' :: (P ++ ['m'])

/-- The dim-default-foreground SGR emitted at the start of the stream and
after every newline. -/
def dimDefault : List Char := sgrSeq "38;2;91;100;109".data

/-- The OSC body scanner shared by dimANSIColors and applyHighlightToLine:
consume content up to and including a BEL or ESC-backslash terminator
(or to the end of the input). -/
def oscSplit : List Char → List Char × List Char
  | [] => ([], [])
  | c :: rest =>
    if c = '\x07' then ([c], rest)
    else if c = '\x1b' then
      match rest with
      | '\\' :: r2 => ([c, '\\'], r2)
      | _ => (c :: (oscSplit rest).1, (oscSplit rest).2)
    else (c :: (oscSplit rest).1, (oscSplit rest).2)

/-- The main walk of dimANSIColors: plain bytes pass through, a newline
re-emits the dim default, OSC and non-CSI escapes pass through verbatim,
non-SGR CSI sequences pass through verbatim, and SGR sequences are rewritten
by transformSGR. -/
def dimLoopF (factor : Factor) : Nat → List Char → List Char
  | 0, l => l
  | _ + 1, [] => []
  | fuel + 1, c :: rest =>
    if c = '\n' then '\n' :: dimDefault ++ dimLoopF factor fuel rest
    else if c ≠ '\x1b' then c :: dimLoopF factor fuel rest
    else match rest with
      | [] => ['\x1b']
      | d :: r2 =>
        if d = ']' then
          '\x1b' :: d :: (oscSplit r2).1 ++ dimLoopF factor fuel (oscSplit r2).2
        else if d = '[' then
          match r2.dropWhile isCsiParam with
          | [] => '\x1b' :: d :: r2.takeWhile isCsiParam
          | f :: r3 =>
            if f = 'm' then
              '\x1b' :: d ::
                (transformSGR factor (r2.takeWhile isCsiParam) ++ 'm' ::
                  dimLoopF factor fuel r3)
            else
              '\x1b' :: d ::
                (r2.takeWhile isCsiParam ++ f :: dimLoopF factor fuel r3)
        else if isEscInter d then
          match r2.dropWhile isEscInter with
          | [] => '\x1b' :: d :: r2.takeWhile isEscInter
          | f :: r3 =>
            '\x1b' :: d :: (r2.takeWhile isEscInter ++ f :: dimLoopF factor fuel r3)
        else '\x1b' :: d :: dimLoopF factor fuel r2

/-- dimANSIColors from the source: empty input unchanged; otherwise the
stream starts with the dim default foreground and is rewritten by the main
walk. -/
def dimANSIColors (s : List Char) (factor : Factor) : List Char :=
  if s = [] then s else dimDefault ++ dimLoopF factor s.length s

/-- The running fg/bg color state carried across one line. -/
structure AnsiColorState where
  fgSet : Bool
  fgR : Int
  fgG : Int
  fgB : Int
  bgSet : Bool
  bgR : Int
  bgG : Int
  bgB : Int
deriving DecidableEq

/-- The all-unset initial state. -/
def colorState0 : AnsiColorState := ⟨false, 0, 0, 0, false, 0, 0, 0⟩

/-- updateColorState's walk over the split parameter list, fueled. -/
def updateColorStateGoF : Nat → AnsiColorState → List (List Char) → AnsiColorState
  | 0, st, _ => st
  | _ + 1, st, [] => st
  | fuel + 1, st, p :: rest =>
    match goAtoi p with
    | none => updateColorStateGoF fuel st rest
    | some code =>
      if code = 0 then
        updateColorStateGoF fuel { st with fgSet := false, bgSet := false } rest
      else if code = 39 then
        updateColorStateGoF fuel { st with fgSet := false } rest
      else if code = 49 then
        updateColorStateGoF fuel { st with bgSet := false } rest
      else if code = 38 ∨ code = 48 then
        match rest with
        | [] => st
        | p1 :: pr :: pg :: pb :: r4 =>
          let next := (goAtoi p1).getD 0
          if next = 2 then
            let r := (goAtoi pr).getD 0
            let g := (goAtoi pg).getD 0
            let b := (goAtoi pb).getD 0
            if code = 38 then
              updateColorStateGoF fuel
                { st with fgSet := true, fgR := r, fgG := g, fgB := b } r4
            else
              updateColorStateGoF fuel
                { st with bgSet := true, bgR := r, bgG := g, bgB := b } r4
          else if next = 5 then
            let c := color256ToRGB ((goAtoi pr).getD 0)
            if code = 38 then
              updateColorStateGoF fuel
                { st with fgSet := true, fgR := c.1, fgG := c.2.1, fgB := c.2.2 }
                (pg :: pb :: r4)
            else
              updateColorStateGoF fuel
                { st with bgSet := true, bgR := c.1, bgG := c.2.1, bgB := c.2.2 }
                (pg :: pb :: r4)
          else updateColorStateGoF fuel st (p1 :: pr :: pg :: pb :: r4)
        | p1 :: pn :: r3 =>
          let next := (goAtoi p1).getD 0
          if next = 5 then
            let c := color256ToRGB ((goAtoi pn).getD 0)
            if code = 38 then
              updateColorStateGoF fuel
                { st with fgSet := true, fgR := c.1, fgG := c.2.1, fgB := c.2.2 } r3
            else
              updateColorStateGoF fuel
                { st with bgSet := true, bgR := c.1, bgG := c.2.1, bgB := c.2.2 } r3
          else updateColorStateGoF fuel st (p1 :: pn :: r3)
        | [p1] => updateColorStateGoF fuel st [p1]
      else if 30 ≤ code ∧ code ≤ 37 then
        let c := palette (code - 30)
        updateColorStateGoF fuel
          { st with fgSet := true, fgR := c.1, fgG := c.2.1, fgB := c.2.2 } rest
      else if 40 ≤ code ∧ code ≤ 47 then
        let c := palette (code - 40)
        updateColorStateGoF fuel
          { st with bgSet := true, bgR := c.1, bgG := c.2.1, bgB := c.2.2 } rest
      else if 90 ≤ code ∧ code ≤ 97 then
        let c := palette (code - 90 + 8)
        updateColorStateGoF fuel
          { st with fgSet := true, fgR := c.1, fgG := c.2.1, fgB := c.2.2 } rest
      else if 100 ≤ code ∧ code ≤ 107 then
        let c := palette (code - 100 + 8)
        updateColorStateGoF fuel
          { st with bgSet := true, bgR := c.1, bgG := c.2.1, bgB := c.2.2 } rest
      else updateColorStateGoF fuel st rest

/-- updateColorState from the source: empty parameters reset both
channels. -/
def updateColorState (st : AnsiColorState) (ps : List Char) : AnsiColorState :=
  if ps = [] then { st with fgSet := false, bgSet := false }
  else updateColorStateGoF (splitOnChar ';' ps).length st (splitOnChar ';' ps)

/-- emitHighlightSGR from the source: lightened fg and bg pair with
defaults fg 229,229,229 and bg 0,0,0. -/
def emitHighlightSGR (st : AnsiColorState) (factor : Factor) : List Char :=
  let fg := if st.fgSet then (st.fgR, st.fgG, st.fgB) else ((229 : Int), (229 : Int), (229 : Int))
  let bg := if st.bgSet then (st.bgR, st.bgG, st.bgB) else ((0 : Int), (0 : Int), (0 : Int))
  let lf := lightenRGB fg.1 fg.2.1 fg.2.2 factor
  let lb := lightenRGB bg.1 bg.2.1 bg.2.2 factor
  sgrSeq ("38;2;".data ++ itoa lf.1 ++ ';' :: itoa lf.2.1 ++ ';' :: itoa lf.2.2) ++
    sgrSeq ("48;2;".data ++ itoa lb.1 ++ ';' :: itoa lb.2.1 ++ ';' :: itoa lb.2.2)

/-- emitRestoreSGR from the source: replay the running colors (or the
default-color SGRs when unset). -/
def emitRestoreSGR (st : AnsiColorState) : List Char :=
  (if st.fgSet then
    sgrSeq ("38;2;".data ++ itoa st.fgR ++ ';' :: itoa st.fgG ++ ';' :: itoa st.fgB)
   else sgrSeq "39".data) ++
  (if st.bgSet then
    sgrSeq ("48;2;".data ++ itoa st.bgR ++ ';' :: itoa st.bgG ++ ';' :: itoa st.bgB)
   else sgrSeq "49".data)

/-- The main walk of applyHighlightToLine: every escape sequence is emitted
verbatim; SGR sequences additionally update the color state and, inside the
highlight region, are followed by a re-emitted lightened SGR; visible
characters entering the region are preceded by the lightened SGR pair, and
leaving it are followed by the restore SGR.  Returns the output together
with the final color state, visible column and in-highlight flag. -/
def hlLoopF (factor : Factor) (startCol endCol : Int) :
    Nat → AnsiColorState → Int → Bool →
    List Char → List Char × AnsiColorState × Int × Bool
  | 0, st, visCol, inH, l => (l, st, visCol, inH)
  | _ + 1, st, visCol, inH, [] => ([], st, visCol, inH)
  | fuel + 1, st, visCol, inH, c :: rest =>
    if c = '\x1b' then
      match rest with
      | [] => (['\x1b'], st, visCol, inH)
      | d :: r2 =>
        if d = ']' then
          let o := oscSplit r2
          let r := hlLoopF factor startCol endCol fuel st visCol inH o.2
          ('\x1b' :: d :: (o.1 ++ r.1), r.2)
        else if d = '[' then
          match r2.dropWhile isCsiParam with
          | [] => ('\x1b' :: d :: r2.takeWhile isCsiParam, st, visCol, inH)
          | f :: r3 =>
            if f = 'm' then
              let ps := r2.takeWhile isCsiParam
              let st2 := updateColorState st ps
              let extra := if inH then emitHighlightSGR st2 factor else []
              let r := hlLoopF factor startCol endCol fuel st2 visCol inH r3
              ('\x1b' :: d :: (ps ++ f :: (extra ++ r.1)), r.2)
            else
              let r := hlLoopF factor startCol endCol fuel st visCol inH r3
              ('\x1b' :: d :: (r2.takeWhile isCsiParam ++ f :: r.1), r.2)
        else if isEscInter d then
          match r2.dropWhile isEscInter with
          | [] => ('\x1b' :: d :: r2.takeWhile isEscInter, st, visCol, inH)
          | f :: r3 =>
            let r := hlLoopF factor startCol endCol fuel st visCol inH r3
            ('\x1b' :: d :: (r2.takeWhile isEscInter ++ f :: r.1), r.2)
        else
          let r := hlLoopF factor startCol endCol fuel st visCol inH r2
          ('\x1b' :: d :: r.1, r.2)
    else
      let enter := !inH && decide (startCol ≤ visCol) && decide (visCol ≤ endCol)
      let pre := if enter then emitHighlightSGR st factor else []
      let inH1 := inH || enter
      let leave := inH1 && decide (endCol < visCol + 1)
      let post := if leave then emitRestoreSGR st else []
      let r := hlLoopF factor startCol endCol fuel st (visCol + 1) (inH1 && !leave) rest
      (pre ++ c :: (post ++ r.1), r.2)

/-- applyHighlightToLine from the source: run the walk and pad with
highlighted spaces when endCol extends beyond the content. -/
def applyHighlightToLine (line : List Char) (startCol endCol : Int)
    (factor : Factor) : List Char :=
  let r := hlLoopF factor startCol endCol line.length colorState0 0 false line
  if endCol ≥ r.2.2.1 then
    r.1 ++ (if !r.2.2.2 then emitHighlightSGR r.2.1 factor else []) ++
      List.replicate (endCol + 1 - r.2.2.1).toNat ' ' ++ emitRestoreSGR r.2.1
  else r.1 ++ (if r.2.2.2 then emitRestoreSGR r.2.1 else [])

/-! ## Selection rendering (internal/tui/app.go: normalizedSelection,
applySelectionHighlight) -/

/-- normalizedSelection: selection coordinates with start before end. -/
def normalizedSelection (sr sc er ec : Int) : Int × Int × Int × Int :=
  if sr > er ∨ (sr = er ∧ sc > ec) then (er, ec, sr, sc) else (sr, sc, er, ec)

/-- The Go for-loop over line indices, as an index-passing map. -/
def mapRows (f : Nat → List Char → List Char) :
    Nat → List (List Char) → List (List Char)
  | _, [] => []
  | i, r :: rs => f i r :: mapRows f (i + 1) rs

/-- The per-row transformation of applySelectionHighlight: rows outside
[startRow, endRow] unchanged; the start row begins at startCol, the end row
ends at endCol, intermediate rows end at their own visible length minus one;
rows with lec below lsc are skipped; selected spans get reverse video. -/
def selectionRow (startRow startCol endRow endCol : Int) (i : Nat)
    (line : List Char) : List Char :=
  if startRow ≤ (i : Int) ∧ (i : Int) ≤ endRow then
    let lsc : Int := if (i : Int) = startRow then startCol else 0
    let lec : Int :=
      if (i : Int) = endRow then endCol else ((stripANSI line).length : Int) - 1
    if lec < lsc then line else applyReverseVideoToLine line lsc lec
  else line

/-- applySelectionHighlight from the source: split into lines, overlay
reverse video on the selected region of each line, re-join. -/
def applySelectionHighlight (content : List Char) (sr sc er ec : Int) :
    List Char :=
  let n := normalizedSelection sr sc er ec
  joinChar '\n'
    (mapRows (selectionRow n.1 n.2.1 n.2.2.1 n.2.2.2) 0 (splitOnChar '\n' content))

/-- Following the specification text for comparison: the rendering pipeline
applies the ANSI-transformer Highlight of 4.2 to each row in
[startRow, endRow], with the row equal to startRow using lsc = startCol,
the row equal to endRow using lec = endCol, every intermediate row using
lec = termWidth - 1, and rows with lec < lsc skipped. -/
def applySelectionHighlightSpec (content : List Char) (sr sc er ec : Int)
    (termWidth : Int) (factor : Factor) : List Char :=
  joinChar '\n'
    (mapRows
      (fun i line =>
        if sr ≤ (i : Int) ∧ (i : Int) ≤ er then
          let lsc : Int := if (i : Int) = sr then sc else 0
          let lec : Int := if (i : Int) = er then ec else termWidth - 1
          if lec < lsc then line else applyHighlightToLine line lsc lec factor
        else line)
      0 (splitOnChar '\n' content))

/-! ## A token grammar of well-formed ANSI lines

The ANSI-aware walks (stripANSI, truncateAnsi/skipAnsi, dimANSIColors,
applyHighlightToLine) agree on how to parse a line exactly when the line is
a sequence of visible characters, complete CSI sequences whose parameter
bytes are digits or semicolons and whose final byte is a letter, and
two-byte charset escapes.  The grammar below generates those lines. -/

inductive AnsiTok where
  | vis (c : Char)
  | csi (ps : List Char) (f : Char)
  | escC (f : Char)
deriving DecidableEq

def renderTok : AnsiTok → List Char
  | AnsiTok.vis c => [c]
  | AnsiTok.csi ps f => '\x1b' :: '[' :: (ps ++ [f])
  | AnsiTok.escC f => ['\x1b', '(', f]

def renderToks : List AnsiTok → List Char
  | [] => []
  | t :: ts => renderTok t ++ renderToks ts

/-- The visible characters of a token sequence (what remains after the
escape sequences are removed). -/
def visChars : List AnsiTok → List Char
  | [] => []
  | AnsiTok.vis c :: ts => c :: visChars ts
  | AnsiTok.csi _ _ :: ts => visChars ts
  | AnsiTok.escC _ :: ts => visChars ts

/-- The number of visible columns of a token sequence. -/
def visCount (ts : List AnsiTok) : Nat := (visChars ts).length

/-- Well-formedness: visible characters are not ESC, CSI parameters are
digits or semicolons with a letter final byte, charset escapes have a
letter final byte. -/
def wfTok : AnsiTok → Bool
  | AnsiTok.vis c => c ≠ '\x1b'
  | AnsiTok.csi ps f => ps.all isStripParam && isAsciiLetter f
  | AnsiTok.escC f => isAsciiLetter f

/-- All color channels of the running state are nonnegative. -/
def stNonneg (st : AnsiColorState) : Prop :=
  0 ≤ st.fgR ∧ 0 ≤ st.fgG ∧ 0 ≤ st.fgB ∧ 0 ≤ st.bgR ∧ 0 ≤ st.bgG ∧ 0 ≤ st.bgB

theorem scrollStep_bounds (H : Nat) (s : Int) (op : ScrollOp)
    (h0 : 0 ≤ s) (h1 : s ≤ (H : Int)) :
    0 ≤ scrollStep H s op ∧ scrollStep H s op ≤ (H : Int) := by
  cases op with
  | up n =>
      simp only [scrollStep]
      split <;> constructor <;> omega
  | down n =>
      simp only [scrollStep]
      split <;> constructor <;> omega

theorem scrollRun_bounds (H : Nat) (s : Int) (ops : List ScrollOp)
    (h0 : 0 ≤ s) (h1 : s ≤ (H : Int)) :
    0 ≤ scrollRun H s ops ∧ scrollRun H s ops ≤ (H : Int) := by
  induction ops generalizing s with
  | nil => exact ⟨h0, h1⟩
  | cons op ops ih =>
      have h := scrollStep_bounds H s op h0 h1
      simpa [scrollRun, List.foldl] using ih (scrollStep H s op) h.1 h.2

/-- C5.  Scroll clamping: starting from offset 0, after any sequence of
ScrollUp(n)/ScrollDown(n) calls the scroll offset lies within
[0, cachedHistSize]. -/
theorem scroll_offset_clamped (H : Nat) (ops : List ScrollOp) :
    0 ≤ scrollRun H 0 ops ∧ scrollRun H 0 ops ≤ (H : Int) :=
  scrollRun_bounds H 0 ops le_rfl (by exact_mod_cast Nat.zero_le H)

theorem respawnFree_cons (e : TermEvent) (es : List TermEvent)
    (h : respawnFree (e :: es)) : respawnFree es := by
  simp only [respawnFree, List.mem_cons, not_or] at h ⊢
  exact h.2

theorem exitedCount_cons (s : TermState) (e : TermEvent) (es : List TermEvent) :
    exitedCount s (e :: es) =
      ((termStep s e).2.1.filter (· = TermMsg.exited)).length +
        exitedCount (termStep s e).1 es := by
  simp [exitedCount, termRun]

theorem exitedCount_dead_zero (s : TermState) (es : List TermEvent)
    (hfree : respawnFree es) (hdead : s.paneDead = true) :
    exitedCount s es = 0 := by
  induction es generalizing s with
  | nil => simp [exitedCount, termRun]
  | cons e es ih =>
      have hfree' := respawnFree_cons e es hfree
      rw [exitedCount_cons]
      cases e with
      | tick d =>
          by_cases hc : s.closed <;> cases d <;>
            simp_all [termStep]
      | respawn ok =>
          cases ok with
          | false => simp_all [termStep]
          | true => exact absurd (List.mem_cons_self _ _) hfree
      | detach => simp_all [termStep]
      | close =>
          by_cases hc : s.closed <;> simp_all [termStep]

theorem exitedCount_le_one (s : TermState) (es : List TermEvent)
    (hfree : respawnFree es) : exitedCount s es ≤ 1 := by
  induction es generalizing s with
  | nil => simp [exitedCount, termRun]
  | cons e es ih =>
      have hfree' := respawnFree_cons e es hfree
      rw [exitedCount_cons]
      cases e with
      | tick d =>
          by_cases hc : s.closed
          · simp_all [termStep]
          · cases d with
            | false => simp_all [termStep]
            | true =>
                by_cases hd : s.paneDead
                · simp_all [termStep]
                · have hz := exitedCount_dead_zero ({ s with paneDead := true })
                    es hfree' rfl
                  simp_all [termStep]
      | respawn ok =>
          cases ok with
          | false => simp_all [termStep]
          | true => exact absurd (List.mem_cons_self _ _) hfree
      | detach => simp_all [termStep]
      | close =>
          by_cases hc : s.closed <;> simp_all [termStep]

/-- C4.  At-most-once exit delivery: (1) within any respawn-free trace
(a single child-process lifetime) the handle posts at most one Exited
message; (2) an Exited message is posted by a step only on the transition of
the paneDead flag from false to true; (3) after a successful Respawn (which
resets the flag, beginning a new lifetime) any further respawn-free suffix
again posts at most one Exited. -/
theorem exited_at_most_once_per_lifetime (s : TermState) (es : List TermEvent) :
    (respawnFree es → exitedCount s es ≤ 1) ∧
    (∀ e, TermMsg.exited ∈ (termStep s e).2.1 →
      s.paneDead = false ∧ (termStep s e).1.paneDead = true) ∧
    (∀ post : List TermEvent, respawnFree post →
      exitedCount (termRun s (es ++ [TermEvent.respawn true])).1 post ≤ 1) := by
  refine ⟨exitedCount_le_one s es, ?_, ?_⟩
  · intro e hmem
    cases e with
    | tick d =>
        by_cases hc : s.closed
        · simp_all [termStep]
        · cases d with
          | false => simp_all [termStep]
          | true =>
              by_cases hd : s.paneDead <;> simp_all [termStep]
    | respawn ok => cases ok <;> simp_all [termStep]
    | detach => simp_all [termStep]
    | close => by_cases hc : s.closed <;> simp_all [termStep]
  · intro post hpost
    exact exitedCount_le_one _ post hpost

/-- Witness for C4 at a concrete trace: a dead pane observed on two
consecutive ticks posts exactly one Exited, and after a respawn a further
death posts exactly one more. -/
theorem exited_at_most_once_per_lifetime_witness :
    exitedCount termInit [TermEvent.tick true, TermEvent.tick true] = 1 ∧
    (respawnFree [TermEvent.tick true, TermEvent.tick true] →
      exitedCount termInit [TermEvent.tick true, TermEvent.tick true] ≤ 1) ∧
    exitedCount (termRun termInit
      ([TermEvent.tick true, TermEvent.tick true] ++ [TermEvent.respawn true])).1
      [TermEvent.tick true, TermEvent.tick true] ≤ 1 := by
  refine ⟨by decide, (exited_at_most_once_per_lifetime termInit _).1, ?_⟩
  exact (exited_at_most_once_per_lifetime termInit
    [TermEvent.tick true, TermEvent.tick true]).2.2
    [TermEvent.tick true, TermEvent.tick true] (by decide)

/-- C8 counterexample: a close() call after a detach() does NOT issue
kill-session — Close returns early when stopPollLoop reports the poll loop
already stopped, so the claim that every close() kills the tmux session is
false after the sequence detach; close. -/
theorem close_after_detach_no_kill :
    cmdsOf (termRun termInit [TermEvent.detach]).1 TermEvent.close = [] := by
  decide

/-- C8 amended.  detach() only stops the polling loop (it issues no tmux
command and sets the closed flag); close() stops the polling loop and issues
kill-session if and only if the polling loop had not already been stopped by
an earlier detach() or close(); on a live handle close() therefore kills the
tmux session. -/
theorem detach_close_lifecycle (s : TermState) :
    ((termStep s TermEvent.detach).2.2 = [] ∧
      (termStep s TermEvent.detach).1.closed = true) ∧
    ((termStep s TermEvent.close).1.closed = true ∧
      ((termStep s TermEvent.close).2.2 = [MuxCmd.killSession] ↔ s.closed = false)) := by
  by_cases hc : s.closed <;> simp_all [termStep]

/-- C1.  Session creation is transactional: whenever a step after successful
worktree creation fails (config load, setup execution, or the database
insert), the call returns an error, the best-effort rollback has been
invoked, and no session row is persisted; consequently, whenever the
best-effort delete_worktree succeeds, the worktree exists at return if and
only if the session row does. -/
theorem create_session_transactional (u : Bool) (env : CreateEnv) :
    ((createSession u env).ok = false →
      (createSession u env).rowInserted = false ∧
      ((createSession u env).worktreeCreated = true →
        (createSession u env).cleanupInvoked = true)) ∧
    (env.deleteOk = true →
      (worktreeExists (createSession u env) env = true ↔
        (createSession u env).rowInserted = true)) := by
  unfold createSession worktreeExists
  split_ifs <;> simp_all

/-- Witness for C1: with every collaborator failing at the database insert,
the rollback runs and worktree existence matches row existence. -/
theorem create_session_transactional_witness :
    (let env : CreateEnv :=
      ⟨true, false, false, false, true, true, [], true, false, true⟩
     (createSession false env).ok = false ∧
     (createSession false env).rowInserted = false ∧
     (createSession false env).cleanupInvoked = true ∧
     (worktreeExists (createSession false env) env = true ↔
       (createSession false env).rowInserted = true)) := by
  refine ⟨by decide, ?_, by decide, ?_⟩
  · exact ((create_session_transactional false
      ⟨true, false, false, false, true, true, [], true, false, true⟩).1
      (by decide)).1
  · exact (create_session_transactional false
      ⟨true, false, false, false, true, true, [], true, false, true⟩).2 rfl

/-- C2 counterexample: when a setup command fails during creation, the
session row has NOT been persisted and the worktree HAS been rolled back —
the exact opposite of the claim.  (Setup also ran inside the call rather
than outside it, and the call returns only the session, not a command
list.) -/
theorem setup_failure_not_persisted :
    (let env : CreateEnv :=
      ⟨true, false, false, false, true, true, [String.mk [Char.ofNat 120]],
        false, true, true⟩
     (createSession false env).setupRan = true ∧
     (createSession false env).ok = false ∧
     (createSession false env).rowInserted = false ∧
     (createSession false env).cleanupInvoked = true) := by
  decide

/-- C2 amended.  Setup commands run inside CreateSession, after worktree
creation and before the database insert; when a setup command fails the call
returns an error, no session row has been persisted, and the worktree is
rolled back (best-effort delete_worktree); a session row is only ever
persisted after the setup commands succeed. -/
theorem setup_failure_rolls_back (u : Bool) (env : CreateEnv)
    (hv : env.validName = true) (hn : env.nameExists = false)
    (hb : u = false ∨ (env.branchCheckErr = false ∧ env.branchHasSession = false))
    (hw : env.worktreeOk = true) (hc : env.configOk = true)
    (hs : env.setupCmds ≠ []) (hf : env.setupOk = false) :
    (createSession u env).setupRan = true ∧
    (createSession u env).ok = false ∧
    (createSession u env).rowInserted = false ∧
    (createSession u env).cleanupInvoked = true ∧
    (∀ env2 : CreateEnv, ∀ u2 : Bool,
      (createSession u2 env2).rowInserted = true →
      (env2.setupCmds.isEmpty = true ∨ env2.setupOk = true)) := by
  have hne : env.setupCmds.isEmpty = false := by
    cases h : env.setupCmds with
    | nil => exact absurd h hs
    | cons a l => simp
  refine ⟨?_, ?_, ?_, ?_, ?_⟩
  · rcases hb with hb | hb <;>
      simp_all [createSession]
  · rcases hb with hb | hb <;>
      simp_all [createSession]
  · rcases hb with hb | hb <;>
      simp_all [createSession]
  · rcases hb with hb | hb <;>
      simp_all [createSession]
  · intro env2 u2 hrow
    by_cases he : env2.setupCmds.isEmpty
    · exact Or.inl (by simpa using he)
    · right
      by_cases hso : env2.setupOk
      · exact hso
      · exfalso
        unfold createSession at hrow
        split_ifs at hrow
        simp_all

/-- Witness for C2 amended: a concrete environment whose single setup
command fails. -/
theorem setup_failure_rolls_back_witness :
    (let env : CreateEnv :=
      ⟨true, false, false, false, true, true, [String.mk [Char.ofNat 120]],
        false, true, true⟩
     (createSession false env).setupRan = true ∧
     (createSession false env).ok = false ∧
     (createSession false env).rowInserted = false ∧
     (createSession false env).cleanupInvoked = true) := by
  have h := setup_failure_rolls_back false
    ⟨true, false, false, false, true, true, [String.mk [Char.ofNat 120]],
      false, true, true⟩
    rfl rfl (Or.inl rfl) rfl rfl (by simp) rfl
  exact ⟨h.1, h.2.1, h.2.2.1, h.2.2.2.1⟩

/-- C3 counterexample: the Alt-modified Shift+Tab event produces an
invocation whose final argument is the named key BTab — the Alt modifier is
dropped and no literal is sent via a -l argument, so the claim is false for
this Alt-modified key event. -/
theorem alt_shift_tab_not_literal :
    keyMsgToTmuxArgs "sock" "sess" ⟨KeyType.shiftTab, "", true⟩ =
      some ["-L", "sock", "send-keys", "-t", "sess", "BTab"] ∧
    "-l" ∉ ["-L", "sock", "send-keys", "-t", "sess", "BTab"] := by
  constructor
  · rfl
  · decide

/-- C3 amended.  For every Alt-modified key event other than Shift+Tab
(which is sent as the named key BTab with the Alt modifier dropped), the
adapter produces exactly one tmux invocation whose argument list ends with
one "-l" argument followed by a single literal: ESC prepended to the key's
encoding (rune string; single byte with Ctrl-I/Ctrl-M resolved to Tab/Enter;
or raw xterm escape sequence) — never two separate arguments. -/
theorem alt_key_single_literal (socket sess : String) (t : KeyType) (rs : String)
    (ht : t ≠ KeyType.shiftTab) :
    keyMsgToTmuxArgs socket sess ⟨t, rs, true⟩ =
      some (["-L", socket, "send-keys", "-t", sess] ++
        ["-l", "\x1b" ++ altEncoding t rs]) := by
  cases t <;> first
    | rfl
    | exact absurd rfl ht

/-- Witness for C3 amended at the two concrete examples named in the claim:
Alt+Enter yields the single literal ESC CR and Alt+Up yields the single
literal ESC ESC [ A. -/
theorem alt_key_single_literal_witness :
    keyMsgToTmuxArgs "s" "n" ⟨KeyType.enter, "", true⟩ =
      some ["-L", "s", "send-keys", "-t", "n", "-l", "\x1b\r"] ∧
    keyMsgToTmuxArgs "s" "n" ⟨KeyType.up, "", true⟩ =
      some ["-L", "s", "send-keys", "-t", "n", "-l", "\x1b\x1b[A"] := by
  constructor
  · rw [alt_key_single_literal "s" "n" KeyType.enter "" (by decide)]
    rfl
  · rw [alt_key_single_literal "s" "n" KeyType.up "" (by decide)]
    rfl

/-- C9 counterexample: finalizing a drag selection on linux pipes the text
to xclip; it does not write the OSC 52 escape to the TTY, so the claimed
copy mechanism is false at this concrete input. -/
theorem selection_copy_not_osc52 :
    (handleMouseRelease ⟨true, 5, 5, 5, 5, false⟩ 50 10 80 30 "linux" "hi").2 =
      some (ClipboardSink.execCmd "xclip" ["-selection", "clipboard"] "hi") ∧
    (handleMouseRelease ⟨true, 5, 5, 5, 5, false⟩ 50 10 80 30 "linux" "hi").2 ≠
      some (ClipboardSink.ttyWrite (osc52Sequence "hi")) := by
  constructor
  · rfl
  · decide

/-- C9 amended.  When a mouse-drag selection is finalized on release with
the (clamped) end position differing from the start, the selection is marked
finalized and the selected plain text is copied by piping it to an external
clipboard utility — pbcopy on darwin, xclip -selection clipboard on linux,
and no copy elsewhere — never by writing an OSC 52 escape to the TTY. -/
theorem release_copy_mechanism (m : SelState) (x y tw th : Int)
    (goos text : String) (hsel : m.selecting = true)
    (hmoved : m.selStartRow ≠ releaseRow y th ∨ m.selStartCol ≠ releaseCol x tw)
    (htext : text ≠ "") :
    (handleMouseRelease m x y tw th goos text).1.hasSelection = true ∧
    (handleMouseRelease m x y tw th goos text).1.selecting = false ∧
    (handleMouseRelease m x y tw th goos text).2 =
      (if goos = "darwin" then some (ClipboardSink.execCmd "pbcopy" [] text)
       else if goos = "linux" then
        some (ClipboardSink.execCmd "xclip" ["-selection", "clipboard"] text)
       else none) ∧
    (∀ d : String, (handleMouseRelease m x y tw th goos text).2 ≠
      some (ClipboardSink.ttyWrite d)) := by
  have hr : handleMouseRelease m x y tw th goos text =
      (⟨false, m.selStartRow, m.selStartCol, releaseRow y th, releaseCol x tw, true⟩,
        copySelectionToClipboard goos text) := by
    unfold handleMouseRelease
    rw [if_pos hsel, if_pos hmoved]
  refine ⟨by rw [hr], by rw [hr], ?_, ?_⟩
  · rw [hr]
    simp only [copySelectionToClipboard, if_neg htext]
  · intro d
    rw [hr]
    simp only [copySelectionToClipboard, if_neg htext]
    split_ifs <;> simp

/-- Witness for C9 amended at a concrete release event on linux. -/
theorem release_copy_mechanism_witness :
    (handleMouseRelease ⟨true, 5, 5, 5, 5, false⟩ 50 10 80 30 "linux" "hi").1.hasSelection
        = true ∧
    (handleMouseRelease ⟨true, 5, 5, 5, 5, false⟩ 50 10 80 30 "linux" "hi").2 =
      some (ClipboardSink.execCmd "xclip" ["-selection", "clipboard"] "hi") := by
  have h := release_copy_mechanism ⟨true, 5, 5, 5, 5, false⟩ 50 10 80 30 "linux" "hi"
    rfl (by decide) (by decide)
  refine ⟨h.1, ?_⟩
  rw [h.2.2.1]
  rfl

theorem dropWhileLen (p : Char → Bool) (l : List Char) :
    (l.dropWhile p).length ≤ l.length :=
  (List.dropWhile_suffix p).length_le

theorem charLe (a b : Char) : a ≤ b ↔ a.toNat ≤ b.toNat := by
  rw [Char.le_def, UInt32.le_def, BitVec.le_def]
  exact Iff.rfl

theorem charEq (a b : Char) : a = b ↔ a.toNat = b.toNat :=
  ⟨fun h => by rw [h],
   fun h => by rw [← Char.ofNat_toNat a, ← Char.ofNat_toNat b, h]⟩

theorem isStripParam_iff (c : Char) :
    isStripParam c = true ↔ c.toNat = 59 ∨ (48 ≤ c.toNat ∧ c.toNat ≤ 57) := by
  simp only [isStripParam, Bool.or_eq_true, Bool.and_eq_true, decide_eq_true_eq,
    charEq, charLe]
  rw [show (Char.toNat (Char.ofNat 59)) = 59 from rfl,
    show (Char.toNat (Char.ofNat 48)) = 48 from rfl,
    show (Char.toNat (Char.ofNat 57)) = 57 from rfl]

theorem isAsciiLetter_iff (c : Char) :
    isAsciiLetter c = true ↔
      (65 ≤ c.toNat ∧ c.toNat ≤ 90) ∨ (97 ≤ c.toNat ∧ c.toNat ≤ 122) := by
  simp only [isAsciiLetter, Bool.or_eq_true, Bool.and_eq_true, decide_eq_true_eq,
    charLe]
  rw [show (Char.toNat (Char.ofNat 65)) = 65 from rfl,
    show (Char.toNat (Char.ofNat 90)) = 90 from rfl,
    show (Char.toNat (Char.ofNat 97)) = 97 from rfl,
    show (Char.toNat (Char.ofNat 122)) = 122 from rfl]

theorem isCsiParam_iff (c : Char) :
    isCsiParam c = true ↔ 32 ≤ c.toNat ∧ c.toNat ≤ 63 := by
  simp only [isCsiParam, Bool.and_eq_true, decide_eq_true_eq]

theorem isEscInter_iff (c : Char) :
    isEscInter c = true ↔ 32 ≤ c.toNat ∧ c.toNat ≤ 47 := by
  simp only [isEscInter, Bool.and_eq_true, decide_eq_true_eq]

theorem charNe_of_toNat_ne (a b : Char) (h : a.toNat ≠ b.toNat) : a ≠ b :=
  fun he => h ((charEq a b).mp he)

theorem alpha_not_stripParam (c : Char) (h : isAsciiLetter c = true) :
    isStripParam c = false := by
  rw [isAsciiLetter_iff] at h
  rw [Bool.eq_false_iff]
  intro hs
  rw [isStripParam_iff] at hs
  omega

theorem takeWhile_all_append (p : Char → Bool) (ps : List Char) (f : Char)
    (l : List Char) (hps : ∀ c ∈ ps, p c = true) (hf : p f = false) :
    (ps ++ f :: l).takeWhile p = ps ∧ (ps ++ f :: l).dropWhile p = f :: l := by
  induction ps with
  | nil => simp [List.takeWhile, List.dropWhile, hf]
  | cons a as ih =>
      have ha := hps a (List.mem_cons_self a as)
      have hrec := ih (fun c hc => hps c (List.mem_cons_of_mem a hc))
      simp only [List.cons_append, List.takeWhile_cons, List.dropWhile_cons, ha,
        if_true]
      exact ⟨by rw [hrec.1], by rw [hrec.2]⟩

theorem stripANSIF_nil (fuel : Nat) : stripANSIF fuel [] = [] := by
  cases fuel <;> rfl

theorem stripANSIF_irrel : ∀ (f1 : Nat), ∀ (f2 : Nat) (l : List Char),
    l.length ≤ f1 → l.length ≤ f2 → stripANSIF f1 l = stripANSIF f2 l := by
  intro f1
  induction f1 with
  | zero =>
      intro f2 l h1 _
      rw [List.length_eq_zero.mp (Nat.le_zero.mp h1)]
      rw [stripANSIF_nil, stripANSIF_nil]
  | succ f1 ih =>
      intro f2 l h1 h2
      cases l with
      | nil => rw [stripANSIF_nil, stripANSIF_nil]
      | cons c rest =>
          cases f2 with
          | zero => simp at h2
          | succ g =>
              simp only [List.length_cons, Nat.succ_le_succ_iff] at h1 h2
              by_cases hc : c = '\x1b'
              · subst hc
                cases rest with
                | nil => simp [stripANSIF]
                | cons d r2 =>
                    simp only [List.length_cons] at h1 h2
                    simp only [stripANSIF, if_pos rfl]
                    by_cases hd : d = '['
                    · rw [if_pos hd, if_pos hd]
                      have hdl := dropWhileLen isStripParam r2
                      cases hdrop : r2.dropWhile isStripParam with
                      | nil =>
                          dsimp only
                          exact congrArg _ (ih g (d :: r2)
                            (by simp only [List.length_cons]; omega)
                            (by simp only [List.length_cons]; omega))
                      | cons f r3 =>
                          rw [hdrop] at hdl
                          simp only [List.length_cons] at hdl
                          dsimp only
                          by_cases hf : isAsciiLetter f = true
                          · rw [if_pos hf, if_pos hf]
                            exact ih g r3 (by omega) (by omega)
                          · rw [if_neg hf, if_neg hf]
                            exact congrArg _ (ih g (d :: r2)
                              (by simp only [List.length_cons]; omega)
                              (by simp only [List.length_cons]; omega))
                    · rw [if_neg hd, if_neg hd]
                      by_cases hp : d = '('
                      · rw [if_pos hp, if_pos hp]
                        cases r2 with
                        | nil =>
                            dsimp only
                            exact congrArg _ (ih g [d]
                              (by simp only [List.length_cons, List.length_nil]
                                  omega)
                              (by simp only [List.length_cons, List.length_nil]
                                  omega))
                        | cons f r3 =>
                            simp only [List.length_cons] at h1 h2
                            dsimp only
                            by_cases hf : isAsciiLetter f = true
                            · rw [if_pos hf, if_pos hf]
                              exact ih g r3 (by omega) (by omega)
                            · rw [if_neg hf, if_neg hf]
                              exact congrArg _ (ih g (d :: f :: r3)
                                (by simp only [List.length_cons]; omega)
                                (by simp only [List.length_cons]; omega))
                      · rw [if_neg hp, if_neg hp]
                        exact congrArg _ (ih g (d :: r2)
                          (by simp only [List.length_cons]; omega)
                          (by simp only [List.length_cons]; omega))
              · simp only [stripANSIF, if_neg hc]
                exact congrArg _ (ih g rest h1 h2)

theorem stripANSIF_eq_strip (fuel : Nat) (l : List Char) (h : l.length ≤ fuel) :
    stripANSIF fuel l = stripANSI l :=
  stripANSIF_irrel fuel l.length l h le_rfl

theorem strip_cons_vis (c : Char) (l : List Char) (hc : c ≠ '\x1b') :
    stripANSI (c :: l) = c :: stripANSI l := by
  simp only [stripANSI, List.length_cons]
  simp only [stripANSIF, if_neg hc]

theorem strip_csi_match (ps : List Char) (f : Char) (l : List Char)
    (hps : ∀ c ∈ ps, isStripParam c = true) (hf : isAsciiLetter f = true) :
    stripANSI ('\x1b' :: '[' :: (ps ++ f :: l)) = stripANSI l := by
  have hdw := (takeWhile_all_append isStripParam ps f l hps
    (alpha_not_stripParam f hf)).2
  simp only [stripANSI, List.length_cons]
  simp only [stripANSIF, if_pos rfl, hdw, hf, if_true]
  apply stripANSIF_eq_strip
  simp only [List.length_append, List.length_cons]
  omega

theorem strip_charset_match (f : Char) (l : List Char)
    (hf : isAsciiLetter f = true) :
    stripANSI ('\x1b' :: '(' :: f :: l) = stripANSI l := by
  simp only [stripANSI, List.length_cons]
  simp only [stripANSIF, if_pos rfl, hf, if_true]
  exact stripANSIF_eq_strip _ _ (by omega)

theorem ansiEscapeSplit_length (l : List Char) :
    (ansiEscapeSplit l).2.length ≤ l.length := by
  cases l with
  | nil => simp [ansiEscapeSplit]
  | cons d r2 =>
      simp only [ansiEscapeSplit]
      by_cases hd : d = '['
      · rw [if_pos hd]
        have h1 := dropWhileLen (fun x => !isAsciiLetter x) r2
        cases hdrop : r2.dropWhile (fun x => !isAsciiLetter x) with
        | nil => simp
        | cons f r3 =>
            rw [hdrop] at h1
            simp only [List.length_cons] at h1
            dsimp only
            simp only [List.length_cons]
            omega
      · rw [if_neg hd]
        by_cases hp : d = '('
        · rw [if_pos hp]
          cases r2 with
          | nil => simp
          | cons c r3 =>
              dsimp only
              simp only [List.length_cons]
              omega
        · rw [if_neg hp]

theorem truncateAnsiF_irrel : ∀ (f1 : Nat), ∀ (f2 : Nat) (l : List Char) (n : Nat),
    l.length ≤ f1 → l.length ≤ f2 → truncateAnsiF f1 l n = truncateAnsiF f2 l n := by
  intro f1
  induction f1 with
  | zero =>
      intro f2 l n h1 _
      rw [List.length_eq_zero.mp (Nat.le_zero.mp h1)]
      cases f2 <;> rfl
  | succ f1 ih =>
      intro f2 l n h1 h2
      cases l with
      | nil => cases f2 <;> rfl
      | cons c rest =>
          cases f2 with
          | zero => simp at h2
          | succ g =>
              cases n with
              | zero => rfl
              | succ n =>
                  simp only [List.length_cons, Nat.succ_le_succ_iff] at h1 h2
                  simp only [truncateAnsiF]
                  split
                  · have hl := ansiEscapeSplit_length rest
                    rw [ih g (ansiEscapeSplit rest).2 (n + 1) (by omega) (by omega)]
                  · rw [ih g rest n h1 h2]

theorem skipAnsiF_irrel : ∀ (f1 : Nat), ∀ (f2 : Nat) (l : List Char) (n : Nat),
    l.length ≤ f1 → l.length ≤ f2 → skipAnsiF f1 l n = skipAnsiF f2 l n := by
  intro f1
  induction f1 with
  | zero =>
      intro f2 l n h1 _
      rw [List.length_eq_zero.mp (Nat.le_zero.mp h1)]
      cases f2 with
      | zero => rfl
      | succ g => cases n <;> rfl
  | succ f1 ih =>
      intro f2 l n h1 h2
      cases l with
      | nil =>
          cases f2 with
          | zero => cases n <;> rfl
          | succ g => cases n <;> rfl
      | cons c rest =>
          cases f2 with
          | zero => simp at h2
          | succ g =>
              cases n with
              | zero => rfl
              | succ n =>
                  simp only [List.length_cons, Nat.succ_le_succ_iff] at h1 h2
                  simp only [skipAnsiF]
                  split
                  · have hl := ansiEscapeSplit_length rest
                    rw [ih g (ansiEscapeSplit rest).2 (n + 1) (by omega) (by omega)]
                  · rw [ih g rest n h1 h2]

theorem splitOnChar_ne_nil (sep : Char) (l : List Char) :
    splitOnChar sep l ≠ [] := by
  cases l with
  | nil => simp [splitOnChar]
  | cons c rest =>
      simp only [splitOnChar]
      split
      · simp
      · split <;> simp

theorem splitOnChar_no_sep (sep : Char) (r : List Char) (h : sep ∉ r) :
    splitOnChar sep r = [r] := by
  induction r with
  | nil => simp [splitOnChar]
  | cons c rest ih =>
      simp only [List.mem_cons, not_or] at h
      have hr := ih h.2
      simp only [splitOnChar]
      rw [if_neg (fun hc => h.1 hc.symm), hr]

theorem splitOnChar_append_sep (sep : Char) (r l : List Char) (h : sep ∉ r) :
    splitOnChar sep (r ++ sep :: l) = r :: splitOnChar sep l := by
  induction r with
  | nil => simp [splitOnChar]
  | cons c rest ih =>
      simp only [List.mem_cons, not_or] at h
      have hr := ih h.2
      simp only [List.cons_append, splitOnChar]
      rw [if_neg (fun hc => h.1 hc.symm)]
      rw [show rest.append (sep :: l) = rest ++ sep :: l from rfl, hr]

theorem splitOnChar_joinChar (sep : Char) (ls : List (List Char))
    (hne : ls ≠ []) (hfree : ∀ r ∈ ls, sep ∉ r) :
    splitOnChar sep (joinChar sep ls) = ls := by
  induction ls with
  | nil => exact absurd rfl hne
  | cons r ls ih =>
      cases ls with
      | nil =>
          rw [joinChar, List.intercalate]
          simp only [List.intersperse, List.flatten, List.append_nil]
          exact splitOnChar_no_sep sep r (hfree r (List.mem_cons_self r []))
      | cons r2 ls2 =>
          have hj : joinChar sep (r :: r2 :: ls2) =
              r ++ sep :: joinChar sep (r2 :: ls2) := by
            rw [joinChar, joinChar, List.intercalate, List.intercalate]
            simp [List.intersperse]
          rw [hj, splitOnChar_append_sep sep r _ (hfree r (List.mem_cons_self r _)),
            ih (by simp) (fun x hx => hfree x (List.mem_cons_of_mem r hx))]

theorem toNat_ofNat_small (k : Nat) (h : k < 1000) : (Char.ofNat k).toNat = k := by
  have hv : Nat.isValidChar k := Or.inl (by omega)
  simp [Char.ofNat, hv, Char.ofNatAux, Char.toNat, UInt32.toNat,
    BitVec.toNat_ofNatLt]

theorem digit_isStripParam (c : Char) (h1 : 48 ≤ c.toNat) (h2 : c.toNat ≤ 57) :
    isStripParam c = true := by
  simp only [isStripParam, Bool.or_eq_true, Bool.and_eq_true, decide_eq_true_eq]
  right
  constructor
  · rw [Char.le_def]
    exact h1
  · rw [Char.le_def]
    exact h2

theorem natDigitsF_digits (fuel : Nat) : ∀ (n : Nat), ∀ c ∈ natDigitsF fuel n,
    48 ≤ c.toNat ∧ c.toNat ≤ 57 := by
  induction fuel with
  | zero => intro n c hc; simp [natDigitsF] at hc
  | succ fuel ih =>
      intro n c hc
      simp only [natDigitsF] at hc
      split at hc
      · next h =>
          rcases List.mem_singleton.mp hc with rfl
          rw [toNat_ofNat_small (48 + n) (by omega)]
          omega
      · rcases List.mem_append.mp hc with h | h
        · exact ih _ c h
        · rcases List.mem_singleton.mp h with rfl
          have hm : n % 10 < 10 := Nat.mod_lt n (by omega)
          rw [toNat_ofNat_small (48 + n % 10) (by omega)]
          omega

/-- itoa of a nonnegative integer consists of decimal digits, hence of
characters the stripANSI regular expression accepts as parameters. -/
theorem itoa_nonneg_stripParam (n : Int) (hn : 0 ≤ n) :
    ∀ c ∈ itoa n, isStripParam c = true := by
  intro c hc
  unfold itoa at hc
  rw [if_neg (by omega)] at hc
  have h := natDigitsF_digits n.toNat.succ n.toNat c hc
  exact digit_isStripParam c h.1 h.2

theorem oscSplit_length (l : List Char) : (oscSplit l).2.length ≤ l.length := by
  induction l with
  | nil => simp [oscSplit]
  | cons c rest ih =>
      simp only [oscSplit]
      split_ifs with h7 he
      · simp
      · split
        · simp
          omega
        · exact le_trans ih (Nat.le_succ _)
      · exact le_trans ih (Nat.le_succ _)

/-- C7 counterexample: on a concrete three-line pane with termWidth 10 and
selection (0,1)-(2,1), the code's selection rendering differs from the
specified one — the code overlays reverse video and ends intermediate rows
at their own visible length minus one, while the spec prescribes the 4.2
lighten Highlight out to termWidth - 1. -/
theorem selection_highlight_not_spec :
    applySelectionHighlight "abc\nde\nfgh".data 0 1 2 1 ≠
      applySelectionHighlightSpec "abc\nde\nfgh".data 0 1 2 1 10 ⟨7, 20⟩ := by
  decide

/-- Both parts of ansiEscapeSplit only contain characters of the input. -/
theorem ansiEscapeSplit_subset (l : List Char) :
    (ansiEscapeSplit l).1 ⊆ l ∧ (ansiEscapeSplit l).2 ⊆ l := by
  have htake : ∀ (p : Char → Bool) (m : List Char), m.takeWhile p ⊆ m :=
    fun p m => (List.takeWhile_prefix p).subset
  have hdrop : ∀ (p : Char → Bool) (m : List Char), m.dropWhile p ⊆ m :=
    fun p m => (List.dropWhile_suffix p).subset
  cases l with
  | nil =>
      constructor <;> intro x hx <;>
        simp [ansiEscapeSplit] at hx
  | cons a as =>
      simp only [ansiEscapeSplit]
      by_cases ha : a = '['
      · rw [if_pos ha]
        cases h : as.dropWhile (fun x => !isAsciiLetter x) with
        | cons f r3 =>
            constructor
            · intro x hx
              simp at hx
              rcases hx with hx | hx | hx
              · simp [hx]
              · exact List.mem_cons_of_mem _ (htake _ as hx)
              · have hmem : x ∈ as.dropWhile (fun x => !isAsciiLetter x) := by
                  rw [h, hx]
                  exact List.mem_cons_self _ _
                exact List.mem_cons_of_mem _ (hdrop _ as hmem)
            · intro x hx
              have hmem : x ∈ as.dropWhile (fun x => !isAsciiLetter x) := by
                rw [h]
                exact List.mem_cons_of_mem _ hx
              exact List.mem_cons_of_mem _ (hdrop _ as hmem)
        | nil =>
            constructor
            · intro x hx
              simp at hx
              rcases hx with hx | hx
              · simp [hx]
              · exact List.mem_cons_of_mem _ (htake _ as hx)
            · intro x hx
              simp at hx
      · rw [if_neg ha]
        by_cases hp : a = '('
        · rw [if_pos hp]
          cases as with
          | nil =>
              constructor <;> intro x hx <;> simp_all
          | cons c r3 =>
              constructor
              · intro x hx
                simp at hx
                rcases hx with hx | hx <;> simp [hx]
              · intro x hx
                simp
                right
                right
                exact hx
        · rw [if_neg hp]
          exact ⟨by intro x hx; simp at hx, fun x hx => hx⟩

/-- The reverse-video overlay introduces no newline: every character of the
output is a character of the line or of the two reverse-video escapes. -/
theorem reverseLoopF_no_newline (sc ec : Int) :
    ∀ (fuel : Nat) (line : List Char) (v : Int) (hR : Bool),
      '\n' ∉ line → '\n' ∉ reverseLoopF sc ec fuel v hR line := by
  intro fuel
  induction fuel with
  | zero =>
      intro line v hR hline
      simp only [reverseLoopF]
      split
      · intro hmem
        rw [List.mem_append] at hmem
        rcases hmem with hmem | hmem
        · exact absurd hmem (by decide)
        · exact hline hmem
      · exact hline
  | succ n ih =>
      intro line v hR hline
      match line with
      | [] =>
          simp only [reverseLoopF]
          split <;> decide
      | c :: rest =>
          simp only [List.mem_cons, not_or] at hline
          simp only [reverseLoopF]
          split
          · intro hmem
            rw [List.cons_append, List.mem_cons, List.mem_append] at hmem
            rcases hmem with hmem | hmem | hmem
            · exact absurd hmem (by decide)
            · exact absurd ((ansiEscapeSplit_subset rest).1 hmem) hline.2
            · have hsub : '\n' ∉ (ansiEscapeSplit rest).2 :=
                fun hx => hline.2 ((ansiEscapeSplit_subset rest).2 hx)
              exact ih _ v hR hsub hmem
          · intro hmem
            rw [List.mem_append, List.mem_append, List.mem_cons] at hmem
            rcases hmem with (hmem | hmem | hmem) | hmem
            · revert hmem
              split <;> decide
            · exact hline.1 hmem
            · revert hmem
              split <;> decide
            · exact ih rest _ _ hline.2 hmem

theorem splitOnChar_rows_no_sep (sep : Char) (l : List Char) :
    ∀ r ∈ splitOnChar sep l, sep ∉ r := by
  induction l with
  | nil =>
      intro r hr
      simp [splitOnChar] at hr
      simp [hr]
  | cons c rest ih =>
      intro r hr
      simp only [splitOnChar] at hr
      by_cases hc : c = sep
      · rw [if_pos hc] at hr
        rcases List.mem_cons.mp hr with h | h
        · simp [h]
        · exact ih r h
      · rw [if_neg hc] at hr
        cases hsplit : splitOnChar sep rest with
        | nil => exact absurd hsplit (splitOnChar_ne_nil sep rest)
        | cons h0 t0 =>
            rw [hsplit] at hr
            rcases List.mem_cons.mp hr with h | h
            · subst h
              intro hx
              rcases List.mem_cons.mp hx with h | h
              · exact hc h.symm
              · exact ih h0 (hsplit ▸ List.mem_cons_self h0 t0) h
            · exact ih r (hsplit ▸ List.mem_cons_of_mem h0 h)

theorem mapRows_no_newline (f : Nat → List Char → List Char)
    (hf : ∀ i r, '\n' ∉ r → '\n' ∉ f i r) :
    ∀ (i : Nat) (rows : List (List Char)), (∀ r ∈ rows, '\n' ∉ r) →
      ∀ r ∈ mapRows f i rows, '\n' ∉ r := by
  intro i rows
  induction rows generalizing i with
  | nil => intro _ r hr; simp [mapRows] at hr
  | cons a as ih =>
      intro hrows r hr
      simp only [mapRows] at hr
      rcases List.mem_cons.mp hr with h | h
      · subst h
        exact hf i a (hrows a (List.mem_cons_self a as))
      · exact ih (i + 1) (fun x hx => hrows x (List.mem_cons_of_mem a hx)) r h

theorem mapRows_ne_nil (f : Nat → List Char → List Char) (i : Nat)
    (rows : List (List Char)) (h : rows ≠ []) : mapRows f i rows ≠ [] := by
  cases rows with
  | nil => exact absurd rfl h
  | cons a as => simp [mapRows]

/-- selectionRow introduces no newline. -/
theorem selectionRow_no_newline (sr sc er ec : Int) (i : Nat) (r : List Char)
    (hr : '\n' ∉ r) : '\n' ∉ selectionRow sr sc er ec i r := by
  unfold selectionRow applyReverseVideoToLine
  split
  · dsimp only
    split <;> split <;> split <;> first
      | exact hr
      | exact reverseLoopF_no_newline _ _ _ r 0 false hr
  · exact hr

/-- C7 amended.  Splitting the output of the selection overlay yields
exactly the input rows with reverse video applied to each row i in the
normalized range [startRow, endRow]: the row equal to startRow starts at
startCol, the row equal to endRow ends at endCol, every intermediate row
ends at its own visible rune count minus one (not termWidth - 1), rows with
lec < lsc are skipped, and rows outside the range are unchanged. -/
theorem selection_overlay_rows (content : List Char) (a b c d : Int) :
    splitOnChar '\n' (applySelectionHighlight content a b c d) =
      mapRows
        (selectionRow (normalizedSelection a b c d).1
          (normalizedSelection a b c d).2.1
          (normalizedSelection a b c d).2.2.1
          (normalizedSelection a b c d).2.2.2)
        0 (splitOnChar '\n' content) := by
  unfold applySelectionHighlight
  exact splitOnChar_joinChar '\n' _
    (mapRows_ne_nil _ 0 _ (splitOnChar_ne_nil '\n' content))
    (mapRows_no_newline _
      (selectionRow_no_newline _ _ _ _)
      0 _ (splitOnChar_rows_no_sep '\n' content))

theorem stripParam_not_alpha (c : Char) (h : isStripParam c = true) :
    isAsciiLetter c = false := by
  rw [isStripParam_iff] at h
  rw [Bool.eq_false_iff]
  intro ha
  rw [isAsciiLetter_iff] at ha
  omega

theorem stripParam_csiParam (c : Char) (h : isStripParam c = true) :
    isCsiParam c = true := by
  rw [isStripParam_iff] at h
  rw [isCsiParam_iff]
  omega

theorem alpha_not_csiParam (c : Char) (h : isAsciiLetter c = true) :
    isCsiParam c = false := by
  rw [isAsciiLetter_iff] at h
  rw [Bool.eq_false_iff]
  intro hc
  rw [isCsiParam_iff] at hc
  omega

theorem alpha_not_escInter (c : Char) (h : isAsciiLetter c = true) :
    isEscInter c = false := by
  rw [isAsciiLetter_iff] at h
  rw [Bool.eq_false_iff]
  intro hc
  rw [isEscInter_iff] at hc
  omega

theorem ansiEscapeSplit_csi (ps : List Char) (f : Char) (l : List Char)
    (hps : ∀ c ∈ ps, isAsciiLetter c = false) (hf : isAsciiLetter f = true) :
    ansiEscapeSplit ('[' :: (ps ++ f :: l)) = ('[' :: (ps ++ [f]), l) := by
  have h := takeWhile_all_append (fun x => !isAsciiLetter x) ps f l
    (fun c hc => by simp [hps c hc]) (by simp [hf])
  simp only [ansiEscapeSplit, if_pos rfl, h.2, h.1, if_true]

theorem ansiEscapeSplit_charset (c : Char) (l : List Char) :
    ansiEscapeSplit ('(' :: c :: l) = (['(', c], l) := by
  simp only [ansiEscapeSplit, if_true]
  rw [if_neg (by decide : ¬ (('(' : Char) = '['))]

theorem truncateAnsi_zero (l : List Char) : truncateAnsi l 0 = [] := by
  cases l <;> rfl

theorem skipAnsi_zero (l : List Char) : skipAnsi l 0 = l := by
  cases l <;> rfl

theorem truncate_cons_vis (c : Char) (l : List Char) (hc : c ≠ '\x1b') (n : Nat) :
    truncateAnsi (c :: l) (n + 1) = c :: truncateAnsi l n := by
  simp only [truncateAnsi, List.length_cons]
  simp only [truncateAnsiF]
  rw [if_neg (by simp [hc])]

theorem skip_cons_vis (c : Char) (l : List Char) (hc : c ≠ '\x1b') (n : Nat) :
    skipAnsi (c :: l) (n + 1) = skipAnsi l n := by
  simp only [skipAnsi, List.length_cons]
  simp only [skipAnsiF]
  rw [if_neg (by simp [hc])]

theorem truncate_csi (ps : List Char) (f : Char) (l : List Char) (n : Nat)
    (hps : ∀ c ∈ ps, isStripParam c = true) (hf : isAsciiLetter f = true) :
    truncateAnsi ('\x1b' :: '[' :: (ps ++ f :: l)) (n + 1) =
      ('\x1b' :: '[' :: (ps ++ [f])) ++ truncateAnsi l (n + 1) := by
  have hsplit := ansiEscapeSplit_csi ps f l
    (fun c hc => stripParam_not_alpha c (hps c hc)) hf
  simp only [truncateAnsi, List.length_cons]
  simp only [truncateAnsiF]
  rw [if_pos (by simp), hsplit]
  rw [truncateAnsiF_irrel _ l.length l (n + 1)
    (by simp only [List.length_append, List.length_cons]; omega) le_rfl]

theorem skip_csi (ps : List Char) (f : Char) (l : List Char) (n : Nat)
    (hps : ∀ c ∈ ps, isStripParam c = true) (hf : isAsciiLetter f = true) :
    skipAnsi ('\x1b' :: '[' :: (ps ++ f :: l)) (n + 1) = skipAnsi l (n + 1) := by
  have hsplit := ansiEscapeSplit_csi ps f l
    (fun c hc => stripParam_not_alpha c (hps c hc)) hf
  simp only [skipAnsi, List.length_cons]
  simp only [skipAnsiF]
  rw [if_pos (by simp), hsplit]
  rw [skipAnsiF_irrel _ l.length l (n + 1)
    (by simp only [List.length_append, List.length_cons]; omega) le_rfl]

theorem truncate_charset (f : Char) (l : List Char) (n : Nat) :
    truncateAnsi ('\x1b' :: '(' :: f :: l) (n + 1) =
      '\x1b' :: '(' :: f :: truncateAnsi l (n + 1) := by
  simp only [truncateAnsi, List.length_cons]
  simp only [truncateAnsiF]
  rw [if_pos (by simp), ansiEscapeSplit_charset]
  rw [truncateAnsiF_irrel _ l.length l (n + 1) (by omega) le_rfl]
  rfl

theorem skip_charset (f : Char) (l : List Char) (n : Nat) :
    skipAnsi ('\x1b' :: '(' :: f :: l) (n + 1) = skipAnsi l (n + 1) := by
  simp only [skipAnsi, List.length_cons]
  simp only [skipAnsiF]
  rw [if_pos (by simp), ansiEscapeSplit_charset]
  exact skipAnsiF_irrel _ l.length l (n + 1) (by omega) le_rfl

/-- C10 counterexample: on a raw string with a malformed charset escape
(ESC ( followed by another escape), truncateAnsi and skipAnsi do not split
the visible text: the concatenation of the stripped halves differs from the
stripped whole ("\x1b(\x1b[31mA" with n = 2). -/
theorem truncate_skip_not_split :
    stripANSI (truncateAnsi "\x1b(\x1b[31mA".data 2) ++
        stripANSI (skipAnsi "\x1b(\x1b[31mA".data 2) ≠
      stripANSI "\x1b(\x1b[31mA".data := by
  decide

/-- C10: on lines made of visible characters and well-formed CSI/charset
escape sequences, truncateAnsi/skipAnsi split the line exactly at visible
column n: the stripped truncation concatenated with the stripped remainder
is the stripped line, and the truncation holds at most n visible columns. -/
theorem truncate_skip_split (ts : List AnsiTok) (n : Nat)
    (hwf : ∀ t ∈ ts, wfTok t = true) :
    stripANSI (truncateAnsi (renderToks ts) n) ++
        stripANSI (skipAnsi (renderToks ts) n) = stripANSI (renderToks ts) ∧
      (stripANSI (truncateAnsi (renderToks ts) n)).length ≤ n := by
  revert hwf
  induction ts generalizing n with
  | nil =>
      intro _
      exact ⟨rfl, Nat.zero_le n⟩
  | cons t ts ih =>
      intro hwf
      have hwt := hwf t (List.mem_cons_self t ts)
      have hwts : ∀ x ∈ ts, wfTok x = true :=
        fun x hx => hwf x (List.mem_cons_of_mem t hx)
      cases n with
      | zero =>
          rw [truncateAnsi_zero, skipAnsi_zero]
          exact ⟨rfl, le_rfl⟩
      | succ n =>
          cases t with
          | vis c =>
              have hc : c ≠ '\x1b' := by simpa [wfTok] using hwt
              rw [show renderToks (AnsiTok.vis c :: ts) = c :: renderToks ts
                from rfl]
              rw [truncate_cons_vis c _ hc n, skip_cons_vis c _ hc n,
                strip_cons_vis c _ hc, strip_cons_vis c _ hc]
              obtain ⟨h1, h2⟩ := ih n hwts
              refine ⟨?_, ?_⟩
              · simp only [List.cons_append, h1]
              · simp only [List.length_cons]
                omega
          | csi ps f =>
              simp only [wfTok, Bool.and_eq_true, List.all_eq_true] at hwt
              have hps : ∀ c ∈ ps, isStripParam c = true := hwt.1
              have hf : isAsciiLetter f = true := hwt.2
              have hre : renderToks (AnsiTok.csi ps f :: ts) =
                  '\x1b' :: '[' :: (ps ++ f :: renderToks ts) := by
                simp [renderToks, renderTok, List.append_assoc]
              have hsh : ∀ X : List Char,
                  ('\x1b' :: '[' :: (ps ++ [f])) ++ X =
                    '\x1b' :: '[' :: (ps ++ f :: X) := by
                intro X
                simp [List.append_assoc]
              rw [hre, truncate_csi ps f _ n hps hf, skip_csi ps f _ n hps hf,
                hsh, strip_csi_match ps f _ hps hf, strip_csi_match ps f _ hps hf]
              exact ih (n + 1) hwts
          | escC f =>
              have hf : isAsciiLetter f = true := by simpa [wfTok] using hwt
              rw [show renderToks (AnsiTok.escC f :: ts) =
                  '\x1b' :: '(' :: f :: renderToks ts from rfl]
              rw [truncate_charset, skip_charset,
                strip_charset_match f _ hf, strip_charset_match f _ hf]
              exact ih (n + 1) hwts

theorem truncate_skip_split_witness :
    (∀ t ∈ [AnsiTok.vis 'a', AnsiTok.csi ['3', '1'] 'm', AnsiTok.vis 'b',
        AnsiTok.escC 'B'], wfTok t = true) ∧
    (stripANSI (truncateAnsi (renderToks [AnsiTok.vis 'a',
          AnsiTok.csi ['3', '1'] 'm', AnsiTok.vis 'b', AnsiTok.escC 'B']) 1) ++
        stripANSI (skipAnsi (renderToks [AnsiTok.vis 'a',
          AnsiTok.csi ['3', '1'] 'm', AnsiTok.vis 'b', AnsiTok.escC 'B']) 1) =
      stripANSI (renderToks [AnsiTok.vis 'a', AnsiTok.csi ['3', '1'] 'm',
          AnsiTok.vis 'b', AnsiTok.escC 'B']) ∧
      (stripANSI (truncateAnsi (renderToks [AnsiTok.vis 'a',
          AnsiTok.csi ['3', '1'] 'm', AnsiTok.vis 'b',
          AnsiTok.escC 'B']) 1)).length ≤ 1) :=
  ⟨by decide,
   truncate_skip_split [AnsiTok.vis 'a', AnsiTok.csi ['3', '1'] 'm',
     AnsiTok.vis 'b', AnsiTok.escC 'B'] 1 (by decide)⟩

theorem renderToks_vis (c : Char) (ts : List AnsiTok) :
    renderToks (AnsiTok.vis c :: ts) = c :: renderToks ts := rfl

theorem renderToks_csi (ps : List Char) (f : Char) (ts : List AnsiTok) :
    renderToks (AnsiTok.csi ps f :: ts) =
      '\x1b' :: '[' :: (ps ++ f :: renderToks ts) := by
  simp [renderToks, renderTok, List.append_assoc]

theorem renderToks_escC (f : Char) (ts : List AnsiTok) :
    renderToks (AnsiTok.escC f :: ts) = '\x1b' :: '(' :: f :: renderToks ts := rfl

theorem renderToks_cons_length_pos (t : AnsiTok) (ts : List AnsiTok) :
    0 < (renderToks (t :: ts)).length := by
  cases t <;> simp [renderToks, renderTok]

/-- stripANSI removes exactly the escape sequences of a well-formed line. -/
theorem strip_renderToks (ts : List AnsiTok) (hwf : ∀ t ∈ ts, wfTok t = true) :
    stripANSI (renderToks ts) = visChars ts := by
  induction ts with
  | nil => rfl
  | cons t ts ih =>
      have hwt := hwf t (List.mem_cons_self t ts)
      have hwts : ∀ x ∈ ts, wfTok x = true :=
        fun x hx => hwf x (List.mem_cons_of_mem t hx)
      cases t with
      | vis c =>
          rw [renderToks_vis, strip_cons_vis c _ (by simpa [wfTok] using hwt),
            ih hwts]
          rfl
      | csi ps f =>
          simp only [wfTok, Bool.and_eq_true, List.all_eq_true] at hwt
          rw [renderToks_csi, strip_csi_match ps f _ hwt.1 hwt.2, ih hwts]
          rfl
      | escC f =>
          rw [renderToks_escC,
            strip_charset_match f _ (by simpa [wfTok] using hwt), ih hwts]
          rfl

theorem strip_sgrSeq_append (P X : List Char)
    (h : ∀ c ∈ P, isStripParam c = true) :
    stripANSI (sgrSeq P ++ X) = stripANSI X := by
  have hsh : sgrSeq P ++ X = '\x1b' :: '[' :: (P ++ 'm' :: X) := by
    simp [sgrSeq, List.append_assoc]
  rw [hsh]
  exact strip_csi_match P 'm' X h (by decide)

theorem goAtoi_getD_nonneg (p : List Char)
    (hp : ∀ c ∈ p, isStripParam c = true) : 0 ≤ (goAtoi p).getD 0 := by
  cases p with
  | nil => simp [goAtoi]
  | cons c ds =>
      have hc := hp c (List.mem_cons_self c ds)
      have hcp : c ≠ '+' := fun h => by
        subst h
        exact absurd hc (by decide)
      have hcm : c ≠ '-' := fun h => by
        subst h
        exact absurd hc (by decide)
      rcases h : goAtoiDigits (c :: ds) with _ | n
      · simp [goAtoi, if_neg hcp, if_neg hcm, h]
      · simp [goAtoi, if_neg hcp, if_neg hcm, h]

theorem palette_nonneg (i : Int) :
    0 ≤ (palette i).1 ∧ 0 ≤ (palette i).2.1 ∧ 0 ≤ (palette i).2.2 := by
  unfold palette
  generalize i.toNat = k
  rcases Nat.lt_or_ge k 16 with hk | hk
  · interval_cases k <;> decide
  · rw [List.getD_eq_default]
    · decide
    · simpa [ansi16Colors] using hk

theorem cubeValue_nonneg (i : Int) (hi : 0 ≤ i) : 0 ≤ cubeValue i := by
  unfold cubeValue
  split_ifs with h
  · exact le_rfl
  · omega

theorem color256ToRGB_nonneg (n : Int) :
    0 ≤ (color256ToRGB n).1 ∧ 0 ≤ (color256ToRGB n).2.1 ∧
      0 ≤ (color256ToRGB n).2.2 := by
  unfold color256ToRGB
  split_ifs with h1 h2 h3
  · decide
  · exact palette_nonneg n
  · push_neg at h1
    refine ⟨cubeValue_nonneg _ ?_, cubeValue_nonneg _ ?_, cubeValue_nonneg _ ?_⟩
    all_goals omega
  · push_neg at h1
    simp only
    omega

theorem goInt_nonneg (x : Int) (f : Factor) (hx : 0 ≤ x) (hn : 0 ≤ f.num) :
    0 ≤ goInt x f := by
  unfold goInt
  exact Int.tdiv_nonneg (mul_nonneg hx hn) (Int.natCast_nonneg _)

theorem lighten_nonneg (c : Int) (f : Factor) (hc : 0 ≤ c) (h0 : 0 ≤ f.num)
    (h1 : f.num ≤ (f.den : Int)) (h2 : 0 < f.den) :
    0 ≤ c + goInt (255 - c) f := by
  rcases le_or_lt c 255 with hle | hgt
  · have := goInt_nonneg (255 - c) f (by omega) h0
    omega
  · unfold goInt
    have hx : (255 - c) * f.num = -((c - 255) * f.num) := by ring
    rw [hx, Int.neg_tdiv]
    have hden : (0 : Int) < (f.den : Int) := by exact_mod_cast h2
    have hnn : 0 ≤ (c - 255) * f.num := mul_nonneg (by omega) h0
    have ht : ((c - 255) * f.num).tdiv (f.den : Int) =
        ((c - 255) * f.num) / (f.den : Int) :=
      Int.tdiv_eq_ediv hnn (Int.natCast_nonneg _)
    have h3 : (c - 255) * f.num ≤ (c - 255) * (f.den : Int) :=
      mul_le_mul_of_nonneg_left h1 (by omega)
    have hb : ((c - 255) * f.num) / (f.den : Int) ≤ c - 255 := by
      calc ((c - 255) * f.num) / (f.den : Int)
          ≤ ((c - 255) * (f.den : Int)) / (f.den : Int) :=
            Int.ediv_le_ediv hden h3
        _ = c - 255 := Int.mul_ediv_cancel _ (by omega)
    omega

theorem splitOnChar_mem_subset (sep : Char) (l : List Char) :
    ∀ r ∈ splitOnChar sep l, ∀ c ∈ r, c ∈ l := by
  induction l with
  | nil =>
      intro r hr c hc
      simp only [splitOnChar, List.mem_singleton] at hr
      subst hr
      simp at hc
  | cons a rest ih =>
      intro r hr c hc
      simp only [splitOnChar] at hr
      by_cases ha : a = sep
      · rw [if_pos ha] at hr
        rcases List.mem_cons.mp hr with rfl | hr2
        · simp at hc
        · exact List.mem_cons_of_mem a (ih r hr2 c hc)
      · rw [if_neg ha] at hr
        cases hsp : splitOnChar sep rest with
        | nil => exact absurd hsp (splitOnChar_ne_nil sep rest)
        | cons h0 t0 =>
            rw [hsp] at hr
            rcases List.mem_cons.mp hr with rfl | hr2
            · rcases List.mem_cons.mp hc with rfl | hc2
              · exact List.mem_cons_self _ _
              · exact List.mem_cons_of_mem a
                  (ih h0 (hsp ▸ List.mem_cons_self h0 t0) c hc2)
            · exact List.mem_cons_of_mem a
                (ih r (hsp ▸ List.mem_cons_of_mem h0 hr2) c hc)

theorem joinChar_stripParam (qs : List (List Char))
    (h : ∀ q ∈ qs, ∀ c ∈ q, isStripParam c = true) :
    ∀ c ∈ joinChar ';' qs, isStripParam c = true := by
  induction qs with
  | nil =>
      intro c hc
      simp [joinChar, List.intercalate] at hc
  | cons q qs ih =>
      cases qs with
      | nil =>
          intro c hc
          rw [joinChar, List.intercalate] at hc
          simp only [List.intersperse, List.flatten, List.append_nil] at hc
          exact h q (List.mem_cons_self q []) c hc
      | cons q2 qs2 =>
          have hj : joinChar ';' (q :: q2 :: qs2) =
              q ++ ';' :: joinChar ';' (q2 :: qs2) := by
            rw [joinChar, joinChar, List.intercalate, List.intercalate]
            simp [List.intersperse]
          intro c hc
          rw [hj] at hc
          rcases List.mem_append.mp hc with h1 | h2
          · exact h q (List.mem_cons_self _ _) c h1
          · rcases List.mem_cons.mp h2 with rfl | h3
            · decide
            · exact ih (fun x hx => h x (List.mem_cons_of_mem _ hx)) c h3

/-- The split SGR parameter parts of a digit-semicolon parameter string are
pure digit strings. -/
theorem splitParts_digits (ps : List Char)
    (hps : ∀ c ∈ ps, isStripParam c = true) :
    ∀ p ∈ splitOnChar ';' ps, ∀ c ∈ p, 48 ≤ c.toNat ∧ c.toNat ≤ 57 := by
  intro p hp c hc
  have hmem := splitOnChar_mem_subset ';' ps p hp c hc
  have hno := splitOnChar_rows_no_sep ';' ps p hp
  have hsp := hps c hmem
  rw [isStripParam_iff] at hsp
  rcases hsp with h59 | hd
  · exact absurd hc (by
      have : c = ';' := by
        rw [charEq, h59]
        rfl
      rw [this]
      exact hno)
  · exact hd

theorem dimRGB_itoa_strip (r g b : Int) (fa : Factor) (hr : 0 ≤ r) (hg : 0 ≤ g)
    (hb : 0 ≤ b) (hnum : 0 ≤ fa.num) :
    (∀ c ∈ itoa (dimRGB r g b fa).1, isStripParam c = true) ∧
    (∀ c ∈ itoa (dimRGB r g b fa).2.1, isStripParam c = true) ∧
    (∀ c ∈ itoa (dimRGB r g b fa).2.2, isStripParam c = true) :=
  ⟨itoa_nonneg_stripParam _ (goInt_nonneg r fa hr hnum),
   itoa_nonneg_stripParam _ (goInt_nonneg g fa hg hnum),
   itoa_nonneg_stripParam _ (goInt_nonneg b fa hb hnum)⟩

/-- Every parameter part emitted by the transformSGR walk on digit-string
parts consists of digits and semicolon-free digit strings: the walk only
passes parts through or emits decimal renderings of nonnegative color
values. -/
theorem transformSGRGoF_stripParam (fa : Factor) (hnum : 0 ≤ fa.num) :
    ∀ (fuel : Nat) (parts : List (List Char)),
      (∀ p ∈ parts, ∀ c ∈ p, 48 ≤ c.toNat ∧ c.toNat ≤ 57) →
      ∀ q ∈ transformSGRGoF fa fuel parts, ∀ c ∈ q, isStripParam c = true := by
  intro fuel
  induction fuel with
  | zero =>
      intro parts hp q hq c hc
      exact digit_isStripParam c (hp q hq c hc).1 (hp q hq c hc).2
  | succ fuel ih =>
      intro parts hp
      cases parts with
      | nil =>
          intro q hq
          simp [transformSGRGoF] at hq
      | cons p rest =>
          have hpp := hp p (List.mem_cons_self _ _)
          have hpr : ∀ x ∈ rest, ∀ c ∈ x, 48 ≤ c.toNat ∧ c.toNat ≤ 57 :=
            fun x hx => hp x (List.mem_cons_of_mem _ hx)
          have hPp : ∀ c ∈ p, isStripParam c = true :=
            fun c hc => digit_isStripParam c (hpp c hc).1 (hpp c hc).2
          have hdd : ∀ q ∈ dimDefaultParams, ∀ c ∈ q, isStripParam c = true := by
            decide
          have hget : ∀ x ∈ rest, 0 ≤ (goAtoi x).getD 0 := fun x hx =>
            goAtoi_getD_nonneg x (fun c hc =>
              digit_isStripParam c (hpr x hx c hc).1 (hpr x hx c hc).2)
          simp only [transformSGRGoF]
          cases hga : goAtoi p with
          | none =>
              simp only [List.forall_mem_cons]
              exact ⟨hPp, ih rest hpr⟩
          | some code =>
              dsimp only
              by_cases h0 : code = 0
              · rw [if_pos h0]
                simp only [List.forall_mem_cons, List.forall_mem_append]
                exact ⟨⟨itoa_nonneg_stripParam 0 le_rfl, hdd⟩, ih rest hpr⟩
              rw [if_neg h0]
              by_cases h39 : code = 39
              · rw [if_pos h39]
                simp only [List.forall_mem_append]
                exact ⟨hdd, ih rest hpr⟩
              rw [if_neg h39]
              by_cases h49 : code = 49
              · rw [if_pos h49]
                simp only [List.forall_mem_cons]
                exact ⟨hPp, ih rest hpr⟩
              rw [if_neg h49]
              by_cases h38 : code = 38 ∨ code = 48
              · rw [if_pos h38]
                cases rest with
                | nil =>
                    dsimp only
                    intro q hq
                    rcases List.mem_singleton.mp hq with rfl
                    exact hPp
                | cons p1 rest1 =>
                    have hp1 : ∀ c ∈ p1, 48 ≤ c.toNat ∧ c.toNat ≤ 57 :=
                      hpr p1 (List.mem_cons_self _ _)
                    have hP1 : ∀ c ∈ p1, isStripParam c = true :=
                      fun c hc => digit_isStripParam c (hp1 c hc).1 (hp1 c hc).2
                    have hpr1 : ∀ x ∈ rest1, ∀ c ∈ x, 48 ≤ c.toNat ∧ c.toNat ≤ 57 :=
                      fun x hx => hpr x (List.mem_cons_of_mem _ hx)
                    cases rest1 with
                    | nil =>
                        dsimp only
                        simp only [List.forall_mem_cons]
                        exact ⟨hPp, ih [p1] (by
                          intro x hx
                          rcases List.mem_singleton.mp hx with rfl
                          exact hp1)⟩
                    | cons pn rest2 =>
                        have hpn : ∀ x ∈ pn :: rest2, 0 ≤ (goAtoi x).getD 0 :=
                          fun x hx => hget x
                            (List.mem_cons_of_mem _ hx)
                        cases rest2 with
                        | nil =>
                            dsimp only
                            by_cases h5 : (goAtoi p1).getD 0 = 5
                            · rw [if_pos h5]
                              have hc2 := color256ToRGB_nonneg
                                ((goAtoi pn).getD 0)
                              have hrgb := dimRGB_itoa_strip _ _ _ fa
                                hc2.1 hc2.2.1 hc2.2.2 hnum
                              simp only [List.forall_mem_cons]
                              exact ⟨hPp, hP1, hrgb.1, hrgb.2.1, hrgb.2.2,
                                ih [] (by simp)⟩
                            · rw [if_neg h5]
                              simp only [List.forall_mem_cons]
                              exact ⟨hPp, ih [p1, pn] (by
                                intro x hx c hc
                                rcases List.mem_cons.mp hx with rfl | hx2
                                · exact hp1 c hc
                                · rcases List.mem_singleton.mp hx2 with rfl
                                  exact hpr1 x (List.mem_cons_self _ _) c hc)⟩
                        | cons p3 rest3 =>
                            have hp3mem : ∀ x ∈ p3 :: rest3,
                                ∀ c ∈ x, 48 ≤ c.toNat ∧ c.toNat ≤ 57 :=
                              fun x hx => hpr1 x (List.mem_cons_of_mem _ hx)
                            cases rest3 with
                            | nil =>
                                dsimp only
                                by_cases h5 : (goAtoi p1).getD 0 = 5
                                · rw [if_pos h5]
                                  have hc2 := color256ToRGB_nonneg
                                    ((goAtoi pn).getD 0)
                                  have hrgb := dimRGB_itoa_strip _ _ _ fa
                                    hc2.1 hc2.2.1 hc2.2.2 hnum
                                  simp only [List.forall_mem_cons]
                                  exact ⟨hPp, hP1, hrgb.1, hrgb.2.1, hrgb.2.2,
                                    ih [p3] (by
                                      intro x hx
                                      rcases List.mem_singleton.mp hx with rfl
                                      exact hp3mem x (List.mem_cons_self _ _))⟩
                                · rw [if_neg h5]
                                  simp only [List.forall_mem_cons]
                                  refine ⟨hPp, ih [p1, pn, p3] ?_⟩
                                  intro x hx c hc
                                  rcases List.mem_cons.mp hx with rfl | hx2
                                  · exact hp1 c hc
                                  rcases List.mem_cons.mp hx2 with rfl | hx3
                                  · exact hpr1 x (List.mem_cons_self _ _) c hc
                                  rcases List.mem_singleton.mp hx3 with rfl
                                  exact hp3mem x (List.mem_cons_self _ _) c hc
                            | cons pb r4 =>
                                dsimp only
                                have hr4 : ∀ x ∈ pn :: p3 :: pb :: r4,
                                    ∀ c ∈ x, 48 ≤ c.toNat ∧ c.toNat ≤ 57 :=
                                  fun x hx => hpr1 x hx
                                by_cases h2 : (goAtoi p1).getD 0 = 2
                                · rw [if_pos h2]
                                  have hrgb := dimRGB_itoa_strip
                                    ((goAtoi pn).getD 0) ((goAtoi p3).getD 0)
                                    ((goAtoi pb).getD 0) fa
                                    (hget pn (by simp))
                                    (hget p3 (by simp))
                                    (hget pb (by simp)) hnum
                                  simp only [List.forall_mem_cons]
                                  exact ⟨hPp, hP1, hrgb.1, hrgb.2.1, hrgb.2.2,
                                    ih r4 (fun x hx => hr4 x (by simp [hx]))⟩
                                · rw [if_neg h2]
                                  by_cases h5 : (goAtoi p1).getD 0 = 5
                                  · rw [if_pos h5]
                                    have hc2 := color256ToRGB_nonneg
                                      ((goAtoi pn).getD 0)
                                    have hrgb := dimRGB_itoa_strip _ _ _ fa
                                      hc2.1 hc2.2.1 hc2.2.2 hnum
                                    simp only [List.forall_mem_cons]
                                    exact ⟨hPp, hP1, hrgb.1, hrgb.2.1, hrgb.2.2,
                                      ih (p3 :: pb :: r4)
                                        (fun x hx => hr4 x (by simp [hx]))⟩
                                  · rw [if_neg h5]
                                    simp only [List.forall_mem_cons]
                                    exact ⟨hPp, ih (p1 :: pn :: p3 :: pb :: r4)
                                      hpr⟩
              rw [if_neg h38]
              by_cases h30 : 30 ≤ code ∧ code ≤ 37
              · rw [if_pos h30]
                have hc2 := palette_nonneg (code - 30)
                have hrgb := dimRGB_itoa_strip _ _ _ fa
                  hc2.1 hc2.2.1 hc2.2.2 hnum
                simp only [List.forall_mem_cons]
                exact ⟨itoa_nonneg_stripParam 38 (by omega),
                  itoa_nonneg_stripParam 2 (by omega),
                  hrgb.1, hrgb.2.1, hrgb.2.2, ih rest hpr⟩
              rw [if_neg h30]
              by_cases h40 : 40 ≤ code ∧ code ≤ 47
              · rw [if_pos h40]
                have hc2 := palette_nonneg (code - 40)
                have hrgb := dimRGB_itoa_strip _ _ _ fa
                  hc2.1 hc2.2.1 hc2.2.2 hnum
                simp only [List.forall_mem_cons]
                exact ⟨itoa_nonneg_stripParam 48 (by omega),
                  itoa_nonneg_stripParam 2 (by omega),
                  hrgb.1, hrgb.2.1, hrgb.2.2, ih rest hpr⟩
              rw [if_neg h40]
              by_cases h90 : 90 ≤ code ∧ code ≤ 97
              · rw [if_pos h90]
                have hc2 := palette_nonneg (code - 90 + 8)
                have hrgb := dimRGB_itoa_strip _ _ _ fa
                  hc2.1 hc2.2.1 hc2.2.2 hnum
                simp only [List.forall_mem_cons]
                exact ⟨itoa_nonneg_stripParam 38 (by omega),
                  itoa_nonneg_stripParam 2 (by omega),
                  hrgb.1, hrgb.2.1, hrgb.2.2, ih rest hpr⟩
              rw [if_neg h90]
              by_cases h100 : 100 ≤ code ∧ code ≤ 107
              · rw [if_pos h100]
                have hc2 := palette_nonneg (code - 100 + 8)
                have hrgb := dimRGB_itoa_strip _ _ _ fa
                  hc2.1 hc2.2.1 hc2.2.2 hnum
                simp only [List.forall_mem_cons]
                exact ⟨itoa_nonneg_stripParam 48 (by omega),
                  itoa_nonneg_stripParam 2 (by omega),
                  hrgb.1, hrgb.2.1, hrgb.2.2, ih rest hpr⟩
              rw [if_neg h100]
              simp only [List.forall_mem_cons]
              exact ⟨hPp, ih rest hpr⟩

/-- transformSGR maps digit-semicolon parameter strings to digit-semicolon
parameter strings. -/
theorem transformSGR_stripParam (fa : Factor) (ps : List Char)
    (hnum : 0 ≤ fa.num) (hps : ∀ c ∈ ps, isStripParam c = true) :
    ∀ c ∈ transformSGR fa ps, isStripParam c = true := by
  unfold transformSGR
  split_ifs with h
  · decide
  · exact joinChar_stripParam _
      (transformSGRGoF_stripParam fa hnum _ _ (splitParts_digits ps hps))

/-- The main walk of dimANSIColors preserves the visible characters of a
well-formed line: everything it inserts or rewrites strips to nothing. -/
theorem dimLoopF_strip (fa : Factor) (hnum : 0 ≤ fa.num) :
    ∀ (ts : List AnsiTok) (fuel : Nat), (∀ t ∈ ts, wfTok t = true) →
      (renderToks ts).length ≤ fuel →
      stripANSI (dimLoopF fa fuel (renderToks ts)) = visChars ts := by
  intro ts
  induction ts with
  | nil =>
      intro fuel _ _
      cases fuel <;> rfl
  | cons t ts ih =>
      intro fuel hwf hlen
      have hwt := hwf t (List.mem_cons_self t ts)
      have hwts : ∀ x ∈ ts, wfTok x = true :=
        fun x hx => hwf x (List.mem_cons_of_mem t hx)
      cases fuel with
      | zero =>
          have := renderToks_cons_length_pos t ts
          omega
      | succ g =>
          cases t with
          | vis c =>
              have hc : c ≠ '\x1b' := by simpa [wfTok] using hwt
              rw [renderToks_vis] at hlen ⊢
              simp only [List.length_cons] at hlen
              simp only [dimLoopF]
              by_cases hnl : c = '\n'
              · subst hnl
                rw [if_pos rfl, List.cons_append,
                  strip_cons_vis _ _ (by decide)]
                simp only [dimDefault]
                rw [strip_sgrSeq_append _ _ (by decide), ih g hwts (by omega)]
                rfl
              · rw [if_neg hnl, if_pos hc, strip_cons_vis c _ hc,
                  ih g hwts (by omega)]
                rfl
          | csi ps f =>
              simp only [wfTok, Bool.and_eq_true, List.all_eq_true] at hwt
              obtain ⟨hps, hf⟩ := hwt
              rw [renderToks_csi] at hlen ⊢
              simp only [List.length_cons, List.length_append] at hlen
              simp only [dimLoopF]
              rw [if_neg (by decide : ¬('\x1b' : Char) = '\n'),
                if_neg (show ¬('\x1b' : Char) ≠ '\x1b' from fun h => h rfl)]
              simp only [if_true]
              have hks := takeWhile_all_append isCsiParam ps f (renderToks ts)
                (fun c hc => stripParam_csiParam c (hps c hc))
                (alpha_not_csiParam f hf)
              rw [hks.2, hks.1]
              dsimp only
              by_cases hfm : f = 'm'
              · subst hfm
                rw [if_neg (by decide : ¬('[' : Char) = ']'), if_pos rfl,
                  strip_csi_match _ 'm' _
                    (transformSGR_stripParam fa ps hnum hps) (by decide),
                  ih g hwts (by omega)]
                rfl
              · rw [if_neg (by decide : ¬('[' : Char) = ']'), if_neg hfm,
                  strip_csi_match ps f _ hps hf, ih g hwts (by omega)]
                rfl
          | escC f =>
              have hf : isAsciiLetter f = true := by simpa [wfTok] using hwt
              rw [renderToks_escC] at hlen ⊢
              simp only [List.length_cons] at hlen
              simp only [dimLoopF]
              rw [if_neg (by decide : ¬('\x1b' : Char) = '\n'),
                if_neg (show ¬('\x1b' : Char) ≠ '\x1b' from fun h => h rfl)]
              rw [if_neg (by decide : ¬('(' : Char) = ']'),
                if_neg (by decide : ¬('(' : Char) = '['),
                if_pos (by decide : isEscInter '(' = true)]
              simp only [List.dropWhile_cons, List.takeWhile_cons,
                alpha_not_escInter f hf, Bool.false_eq_true, if_false]
              rw [List.nil_append, strip_charset_match f _ hf,
                ih g hwts (by omega)]
              rfl

theorem updateColorStateGoF_nonneg :
    ∀ (fuel : Nat) (st : AnsiColorState) (parts : List (List Char)),
      stNonneg st → (∀ p ∈ parts, ∀ c ∈ p, 48 ≤ c.toNat ∧ c.toNat ≤ 57) →
      stNonneg (updateColorStateGoF fuel st parts) := by
  intro fuel
  induction fuel with
  | zero =>
      intro st parts hst _
      exact hst
  | succ fuel ih =>
      intro st parts hst hp
      cases parts with
      | nil => exact hst
      | cons p rest =>
          have hpr : ∀ x ∈ rest, ∀ c ∈ x, 48 ≤ c.toNat ∧ c.toNat ≤ 57 :=
            fun x hx => hp x (List.mem_cons_of_mem _ hx)
          have hget : ∀ x ∈ rest, 0 ≤ (goAtoi x).getD 0 := fun x hx =>
            goAtoi_getD_nonneg x (fun c hc =>
              digit_isStripParam c (hpr x hx c hc).1 (hpr x hx c hc).2)
          simp only [updateColorStateGoF]
          cases hga : goAtoi p with
          | none => exact ih st rest hst hpr
          | some code =>
              dsimp only
              by_cases h0 : code = 0
              · rw [if_pos h0]
                exact ih _ rest hst hpr
              rw [if_neg h0]
              by_cases h39 : code = 39
              · rw [if_pos h39]
                exact ih _ rest hst hpr
              rw [if_neg h39]
              by_cases h49 : code = 49
              · rw [if_pos h49]
                exact ih _ rest hst hpr
              rw [if_neg h49]
              by_cases h38 : code = 38 ∨ code = 48
              · rw [if_pos h38]
                cases rest with
                | nil =>
                    dsimp only
                    exact hst
                | cons p1 rest1 =>
                    have hpr1 : ∀ x ∈ rest1, ∀ c ∈ x,
                        48 ≤ c.toNat ∧ c.toNat ≤ 57 :=
                      fun x hx => hpr x (List.mem_cons_of_mem _ hx)
                    cases rest1 with
                    | nil =>
                        dsimp only
                        exact ih st [p1] hst (by
                          intro x hx
                          rcases List.mem_singleton.mp hx with rfl
                          exact hpr x (List.mem_cons_self _ _))
                    | cons pn rest2 =>
                        cases rest2 with
                        | nil =>
                            dsimp only
                            by_cases h5 : (goAtoi p1).getD 0 = 5
                            · rw [if_pos h5]
                              have hc2 := color256ToRGB_nonneg
                                ((goAtoi pn).getD 0)
                              by_cases hc38 : code = 38
                              · rw [if_pos hc38]
                                exact ih _ [] ⟨hc2.1, hc2.2.1, hc2.2.2,
                                  hst.2.2.2.1, hst.2.2.2.2.1,
                                  hst.2.2.2.2.2⟩ (by simp)
                              · rw [if_neg hc38]
                                exact ih _ [] ⟨hst.1, hst.2.1, hst.2.2.1,
                                  hc2.1, hc2.2.1, hc2.2.2⟩ (by simp)
                            · rw [if_neg h5]
                              exact ih st [p1, pn] hst (by
                                intro x hx c hc
                                rcases List.mem_cons.mp hx with rfl | hx2
                                · exact hpr x (List.mem_cons_self _ _) c hc
                                · rcases List.mem_singleton.mp hx2 with rfl
                                  exact hpr1 x (List.mem_cons_self _ _) c hc)
                        | cons p3 rest3 =>
                            have hp3mem : ∀ x ∈ p3 :: rest3,
                                ∀ c ∈ x, 48 ≤ c.toNat ∧ c.toNat ≤ 57 :=
                              fun x hx => hpr1 x (List.mem_cons_of_mem _ hx)
                            cases rest3 with
                            | nil =>
                                dsimp only
                                by_cases h5 : (goAtoi p1).getD 0 = 5
                                · rw [if_pos h5]
                                  have hc2 := color256ToRGB_nonneg
                                    ((goAtoi pn).getD 0)
                                  by_cases hc38 : code = 38
                                  · rw [if_pos hc38]
                                    exact ih _ [p3] ⟨hc2.1, hc2.2.1, hc2.2.2,
                                      hst.2.2.2.1, hst.2.2.2.2.1,
                                      hst.2.2.2.2.2⟩ (by
                                        intro x hx
                                        rcases List.mem_singleton.mp hx with rfl
                                        exact hp3mem x (List.mem_cons_self _ _))
                                  · rw [if_neg hc38]
                                    exact ih _ [p3] ⟨hst.1, hst.2.1, hst.2.2.1,
                                      hc2.1, hc2.2.1, hc2.2.2⟩ (by
                                        intro x hx
                                        rcases List.mem_singleton.mp hx with rfl
                                        exact hp3mem x (List.mem_cons_self _ _))
                                · rw [if_neg h5]
                                  refine ih st [p1, pn, p3] hst ?_
                                  intro x hx c hc
                                  rcases List.mem_cons.mp hx with rfl | hx2
                                  · exact hpr x (List.mem_cons_self _ _) c hc
                                  rcases List.mem_cons.mp hx2 with rfl | hx3
                                  · exact hpr1 x (List.mem_cons_self _ _) c hc
                                  rcases List.mem_singleton.mp hx3 with rfl
                                  exact hp3mem x (List.mem_cons_self _ _) c hc
                            | cons pb r4 =>
                                dsimp only
                                have hr4 : ∀ x ∈ pn :: p3 :: pb :: r4,
                                    ∀ c ∈ x, 48 ≤ c.toNat ∧ c.toNat ≤ 57 :=
                                  fun x hx => hpr1 x hx
                                by_cases h2 : (goAtoi p1).getD 0 = 2
                                · rw [if_pos h2]
                                  have hr := hget pn (by simp)
                                  have hg := hget p3 (by simp)
                                  have hb := hget pb (by simp)
                                  by_cases hc38 : code = 38
                                  · rw [if_pos hc38]
                                    exact ih _ r4 ⟨hr, hg, hb, hst.2.2.2.1,
                                      hst.2.2.2.2.1, hst.2.2.2.2.2⟩
                                      (fun x hx => hr4 x (by simp [hx]))
                                  · rw [if_neg hc38]
                                    exact ih _ r4 ⟨hst.1, hst.2.1, hst.2.2.1,
                                      hr, hg, hb⟩
                                      (fun x hx => hr4 x (by simp [hx]))
                                · rw [if_neg h2]
                                  by_cases h5 : (goAtoi p1).getD 0 = 5
                                  · rw [if_pos h5]
                                    have hc2 := color256ToRGB_nonneg
                                      ((goAtoi pn).getD 0)
                                    by_cases hc38 : code = 38
                                    · rw [if_pos hc38]
                                      exact ih _ (p3 :: pb :: r4)
                                        ⟨hc2.1, hc2.2.1, hc2.2.2,
                                         hst.2.2.2.1, hst.2.2.2.2.1,
                                         hst.2.2.2.2.2⟩
                                        (fun x hx => hr4 x (by simp [hx]))
                                    · rw [if_neg hc38]
                                      exact ih _ (p3 :: pb :: r4)
                                        ⟨hst.1, hst.2.1, hst.2.2.1,
                                         hc2.1, hc2.2.1, hc2.2.2⟩
                                        (fun x hx => hr4 x (by simp [hx]))
                                  · rw [if_neg h5]
                                    exact ih st (p1 :: pn :: p3 :: pb :: r4)
                                      hst hpr
              rw [if_neg h38]
              by_cases h30 : 30 ≤ code ∧ code ≤ 37
              · rw [if_pos h30]
                have hc2 := palette_nonneg (code - 30)
                exact ih _ rest ⟨hc2.1, hc2.2.1, hc2.2.2, hst.2.2.2.1,
                  hst.2.2.2.2.1, hst.2.2.2.2.2⟩ hpr
              rw [if_neg h30]
              by_cases h40 : 40 ≤ code ∧ code ≤ 47
              · rw [if_pos h40]
                have hc2 := palette_nonneg (code - 40)
                exact ih _ rest ⟨hst.1, hst.2.1, hst.2.2.1, hc2.1, hc2.2.1,
                  hc2.2.2⟩ hpr
              rw [if_neg h40]
              by_cases h90 : 90 ≤ code ∧ code ≤ 97
              · rw [if_pos h90]
                have hc2 := palette_nonneg (code - 90 + 8)
                exact ih _ rest ⟨hc2.1, hc2.2.1, hc2.2.2, hst.2.2.2.1,
                  hst.2.2.2.2.1, hst.2.2.2.2.2⟩ hpr
              rw [if_neg h90]
              by_cases h100 : 100 ≤ code ∧ code ≤ 107
              · rw [if_pos h100]
                have hc2 := palette_nonneg (code - 100 + 8)
                exact ih _ rest ⟨hst.1, hst.2.1, hst.2.2.1, hc2.1, hc2.2.1,
                  hc2.2.2⟩ hpr
              rw [if_neg h100]
              exact ih st rest hst hpr

theorem updateColorState_nonneg (st : AnsiColorState) (ps : List Char)
    (hst : stNonneg st) (hps : ∀ c ∈ ps, isStripParam c = true) :
    stNonneg (updateColorState st ps) := by
  unfold updateColorState
  split_ifs with h
  · exact hst
  · exact updateColorStateGoF_nonneg _ st _ hst (splitParts_digits ps hps)

theorem rgb_params_strip (r g b : Int) (hr : 0 ≤ r) (hg : 0 ≤ g) (hb : 0 ≤ b)
    (pre : List Char) (hpre : ∀ c ∈ pre, isStripParam c = true) :
    ∀ c ∈ pre ++ itoa r ++ ';' :: itoa g ++ ';' :: itoa b,
      isStripParam c = true := by
  intro c hc
  rcases List.mem_append.mp hc with hc1 | hc2
  · rcases List.mem_append.mp hc1 with hc3 | hc4
    · rcases List.mem_append.mp hc3 with h | h
      · exact hpre c h
      · exact itoa_nonneg_stripParam r hr c h
    · rcases List.mem_cons.mp hc4 with rfl | h
      · decide
      · exact itoa_nonneg_stripParam g hg c h
  · rcases List.mem_cons.mp hc2 with rfl | h
    · decide
    · exact itoa_nonneg_stripParam b hb c h

theorem triple_nonneg_ite (b : Bool) (t e : Int × Int × Int)
    (ht : 0 ≤ t.1 ∧ 0 ≤ t.2.1 ∧ 0 ≤ t.2.2)
    (he : 0 ≤ e.1 ∧ 0 ≤ e.2.1 ∧ 0 ≤ e.2.2) :
    0 ≤ (if b then t else e).1 ∧ 0 ≤ (if b then t else e).2.1 ∧
      0 ≤ (if b then t else e).2.2 := by
  cases b
  · simpa using he
  · simpa using ht

theorem strip_emitHighlight_append (st : AnsiColorState) (fa : Factor)
    (X : List Char) (hst : stNonneg st) (h0 : 0 ≤ fa.num)
    (h1 : fa.num ≤ (fa.den : Int)) (h2 : 0 < fa.den) :
    stripANSI (emitHighlightSGR st fa ++ X) = stripANSI X := by
  have hfg := triple_nonneg_ite st.fgSet (st.fgR, st.fgG, st.fgB)
    ((229 : Int), (229 : Int), (229 : Int))
    ⟨hst.1, hst.2.1, hst.2.2.1⟩ ⟨by decide, by decide, by decide⟩
  have hbg := triple_nonneg_ite st.bgSet (st.bgR, st.bgG, st.bgB)
    ((0 : Int), (0 : Int), (0 : Int))
    ⟨hst.2.2.2.1, hst.2.2.2.2.1, hst.2.2.2.2.2⟩ ⟨le_rfl, le_rfl, le_rfl⟩
  simp only [emitHighlightSGR, lightenRGB]
  rw [List.append_assoc,
    strip_sgrSeq_append _ _ (rgb_params_strip _ _ _
      (lighten_nonneg _ fa hfg.1 h0 h1 h2)
      (lighten_nonneg _ fa hfg.2.1 h0 h1 h2)
      (lighten_nonneg _ fa hfg.2.2 h0 h1 h2) _ (by decide)),
    strip_sgrSeq_append _ _ (rgb_params_strip _ _ _
      (lighten_nonneg _ fa hbg.1 h0 h1 h2)
      (lighten_nonneg _ fa hbg.2.1 h0 h1 h2)
      (lighten_nonneg _ fa hbg.2.2 h0 h1 h2) _ (by decide))]

theorem strip_emitRestore_append (st : AnsiColorState) (X : List Char)
    (hst : stNonneg st) :
    stripANSI (emitRestoreSGR st ++ X) = stripANSI X := by
  simp only [emitRestoreSGR]
  rw [List.append_assoc]
  split_ifs with hf hb hb
  · rw [strip_sgrSeq_append _ _ (rgb_params_strip _ _ _ hst.1 hst.2.1 hst.2.2.1
        _ (by decide)),
      strip_sgrSeq_append _ _ (rgb_params_strip _ _ _ hst.2.2.2.1
        hst.2.2.2.2.1 hst.2.2.2.2.2 _ (by decide))]
  · rw [strip_sgrSeq_append _ _ (rgb_params_strip _ _ _ hst.1 hst.2.1 hst.2.2.1
        _ (by decide)),
      strip_sgrSeq_append _ _ (by decide : ∀ c ∈ "49".data,
        isStripParam c = true)]
  · rw [strip_sgrSeq_append _ _ (by decide : ∀ c ∈ "39".data,
        isStripParam c = true),
      strip_sgrSeq_append _ _ (rgb_params_strip _ _ _ hst.2.2.2.1
        hst.2.2.2.2.1 hst.2.2.2.2.2 _ (by decide))]
  · rw [strip_sgrSeq_append _ _ (by decide : ∀ c ∈ "39".data,
        isStripParam c = true),
      strip_sgrSeq_append _ _ (by decide : ∀ c ∈ "49".data,
        isStripParam c = true)]

theorem strip_hlPre_append (b : Bool) (st : AnsiColorState) (fa : Factor)
    (X : List Char) (hst : stNonneg st) (h0 : 0 ≤ fa.num)
    (h1 : fa.num ≤ (fa.den : Int)) (h2 : 0 < fa.den) :
    stripANSI ((if b then emitHighlightSGR st fa else []) ++ X) =
      stripANSI X := by
  cases b
  · simp
  · simpa using strip_emitHighlight_append st fa X hst h0 h1 h2

theorem strip_hlPost_append (b : Bool) (st : AnsiColorState) (X : List Char)
    (hst : stNonneg st) :
    stripANSI ((if b then emitRestoreSGR st else []) ++ X) = stripANSI X := by
  cases b
  · simp
  · simpa using strip_emitRestore_append st X hst

theorem visCount_vis (c : Char) (ts : List AnsiTok) :
    visCount (AnsiTok.vis c :: ts) = visCount ts + 1 := by
  simp [visCount, visChars]

theorem vis_append_assoc (p : List Char) (c : Char) (q rr Y : List Char) :
    (p ++ c :: (q ++ rr)) ++ Y = p ++ (c :: (q ++ (rr ++ Y))) := by
  simp [List.append_assoc]

theorem csi_append_assoc (ps : List Char) (f : Char) (e rr Y : List Char) :
    ('\x1b' :: '[' :: (ps ++ f :: (e ++ rr))) ++ Y =
      '\x1b' :: '[' :: (ps ++ f :: (e ++ (rr ++ Y))) := by
  simp [List.append_assoc]

theorem csi2_append_assoc (ps : List Char) (f : Char) (rr Y : List Char) :
    ('\x1b' :: '[' :: (ps ++ f :: rr)) ++ Y =
      '\x1b' :: '[' :: (ps ++ f :: (rr ++ Y)) := by
  simp [List.append_assoc]

/-- The main walk of applyHighlightToLine preserves visible characters,
keeps the color state nonnegative, and counts the visible columns: every
SGR it inserts strips to nothing. -/
theorem hlLoopF_strip (fa : Factor) (sc ec : Int) (h0 : 0 ≤ fa.num)
    (h1 : fa.num ≤ (fa.den : Int)) (h2 : 0 < fa.den) :
    ∀ (ts : List AnsiTok) (fuel : Nat) (st : AnsiColorState) (visCol : Int)
      (inH : Bool), (∀ t ∈ ts, wfTok t = true) →
      (renderToks ts).length ≤ fuel → stNonneg st →
      (∀ Y, stripANSI ((hlLoopF fa sc ec fuel st visCol inH
            (renderToks ts)).1 ++ Y) = visChars ts ++ stripANSI Y) ∧
        stNonneg (hlLoopF fa sc ec fuel st visCol inH (renderToks ts)).2.1 ∧
        (hlLoopF fa sc ec fuel st visCol inH (renderToks ts)).2.2.1 =
          visCol + (visCount ts : Int) := by
  intro ts
  induction ts with
  | nil =>
      intro fuel st visCol inH _ _ hst
      cases fuel with
      | zero =>
          exact ⟨fun Y => rfl, hst,
            by simp [visCount, visChars, hlLoopF, renderToks]⟩
      | succ g =>
          exact ⟨fun Y => rfl, hst,
            by simp [visCount, visChars, hlLoopF, renderToks]⟩
  | cons t ts ih =>
      intro fuel st visCol inH hwf hlen hst
      have hwt := hwf t (List.mem_cons_self t ts)
      have hwts : ∀ x ∈ ts, wfTok x = true :=
        fun x hx => hwf x (List.mem_cons_of_mem t hx)
      cases fuel with
      | zero =>
          have := renderToks_cons_length_pos t ts
          omega
      | succ g =>
          cases t with
          | vis c =>
              have hc : c ≠ '\x1b' := by simpa [wfTok] using hwt
              rw [renderToks_vis] at hlen ⊢
              simp only [List.length_cons] at hlen
              simp only [hlLoopF]
              rw [if_neg hc]
              dsimp only
              refine ⟨?_, (ih g st (visCol + 1) _ hwts (by omega) hst).2.1, ?_⟩
              · intro Y
                rw [vis_append_assoc,
                  strip_hlPre_append _ st fa _ hst h0 h1 h2,
                  strip_cons_vis c _ hc, strip_hlPost_append _ st _ hst,
                  (ih g st (visCol + 1) _ hwts (by omega) hst).1 Y]
                simp [visChars]
              · rw [(ih g st (visCol + 1) _ hwts (by omega) hst).2.2,
                  visCount_vis]
                push_cast
                ring
          | csi ps f =>
              simp only [wfTok, Bool.and_eq_true, List.all_eq_true] at hwt
              obtain ⟨hps, hf⟩ := hwt
              rw [renderToks_csi] at hlen ⊢
              simp only [List.length_cons, List.length_append] at hlen
              simp only [hlLoopF]
              have hks := takeWhile_all_append isCsiParam ps f (renderToks ts)
                (fun c hc => stripParam_csiParam c (hps c hc))
                (alpha_not_csiParam f hf)
              rw [hks.2, hks.1]
              simp only [if_true]
              rw [if_neg (by decide : ¬('[' : Char) = ']')]
              by_cases hfm : f = 'm'
              · subst hfm
                rw [if_pos rfl]
                dsimp only
                have hst2 := updateColorState_nonneg st ps hst hps
                refine ⟨?_, (ih g _ visCol inH hwts (by omega) hst2).2.1, ?_⟩
                · intro Y
                  rw [csi_append_assoc,
                    strip_csi_match ps 'm' _ hps (by decide),
                    strip_hlPre_append _ _ fa _ hst2 h0 h1 h2,
                    (ih g _ visCol inH hwts (by omega) hst2).1 Y]
                  rfl
                · rw [(ih g _ visCol inH hwts (by omega) hst2).2.2]
                  rfl
              · rw [if_neg hfm]
                dsimp only
                refine ⟨?_, (ih g st visCol inH hwts (by omega) hst).2.1, ?_⟩
                · intro Y
                  rw [csi2_append_assoc, strip_csi_match ps f _ hps hf,
                    (ih g st visCol inH hwts (by omega) hst).1 Y]
                  rfl
                · rw [(ih g st visCol inH hwts (by omega) hst).2.2]
                  rfl
          | escC f =>
              have hf : isAsciiLetter f = true := by simpa [wfTok] using hwt
              rw [renderToks_escC] at hlen ⊢
              simp only [List.length_cons] at hlen
              simp only [hlLoopF]
              simp only [if_true]
              rw [if_neg (by decide : ¬('(' : Char) = ']'),
                if_neg (by decide : ¬('(' : Char) = '['),
                if_pos (by decide : isEscInter '(' = true)]
              simp only [List.dropWhile_cons, List.takeWhile_cons,
                alpha_not_escInter f hf, Bool.false_eq_true, if_false]
              refine ⟨?_, (ih g st visCol inH hwts (by omega) hst).2.1, ?_⟩
              · intro Y
                rw [List.nil_append,
                  show ('\x1b' :: '(' :: f ::
                      (hlLoopF fa sc ec g st visCol inH (renderToks ts)).1) ++ Y
                    = '\x1b' :: '(' :: f ::
                      ((hlLoopF fa sc ec g st visCol inH
                        (renderToks ts)).1 ++ Y) from rfl,
                  strip_charset_match f _ hf,
                  (ih g st visCol inH hwts (by omega) hst).1 Y]
                rfl
              · rw [(ih g st visCol inH hwts (by omega) hst).2.2]
                rfl

/-- C6 counterexample: applyHighlightToLine is not structure-preserving —
when endCol reaches past the visible width it pads the line with
highlighted spaces, so the stripped result of highlight("ab", 0, 3, 0.35)
is "ab  ", not "ab". -/
theorem highlight_not_structure_preserving :
    stripANSI (applyHighlightToLine "ab".data 0 3 ⟨7, 20⟩) ≠
      stripANSI "ab".data := by
  decide

/-- C6: on well-formed ANSI lines and with a factor in [0, 1], the dim
transformation always preserves the stripped text, and the highlight
transformation preserves it whenever endCol stays below the visible
width (otherwise it pads with highlighted spaces). -/
theorem ansi_transform_structure_preserving (fa : Factor) (sc ec : Int)
    (ts : List AnsiTok) (hwf : ∀ t ∈ ts, wfTok t = true)
    (h0 : 0 ≤ fa.num) (h1 : fa.num ≤ (fa.den : Int)) (h2 : 0 < fa.den)
    (hec : ec < (visCount ts : Int)) :
    stripANSI (dimANSIColors (renderToks ts) fa) = stripANSI (renderToks ts) ∧
    stripANSI (applyHighlightToLine (renderToks ts) sc ec fa) =
      stripANSI (renderToks ts) := by
  have hsr := strip_renderToks ts hwf
  constructor
  · unfold dimANSIColors
    split_ifs with h
    · rfl
    · simp only [dimDefault]
      rw [strip_sgrSeq_append _ _ (by decide),
        dimLoopF_strip fa h0 ts _ hwf le_rfl, hsr]
  · obtain ⟨hY, hstF, hvc⟩ := hlLoopF_strip fa sc ec h0 h1 h2 ts
      (renderToks ts).length colorState0 0 false hwf le_rfl
      ⟨le_rfl, le_rfl, le_rfl, le_rfl, le_rfl, le_rfl⟩
    simp only [applyHighlightToLine]
    rw [if_neg (by rw [hvc]; omega)]
    have hpost := strip_hlPost_append
      (hlLoopF fa sc ec (renderToks ts).length colorState0 0 false
        (renderToks ts)).2.2.2
      (hlLoopF fa sc ec (renderToks ts).length colorState0 0 false
        (renderToks ts)).2.1 [] hstF
    rw [List.append_nil] at hpost
    rw [hY _, hpost, show stripANSI [] = [] from rfl, List.append_nil, hsr]

theorem ansi_transform_structure_preserving_witness :
    ((∀ t ∈ [AnsiTok.vis 'a', AnsiTok.csi ['3', '1'] 'm', AnsiTok.vis 'b'],
        wfTok t = true) ∧
      0 ≤ (⟨7, 20⟩ : Factor).num ∧
      (⟨7, 20⟩ : Factor).num ≤ (((⟨7, 20⟩ : Factor).den : Nat) : Int) ∧
      0 < (⟨7, 20⟩ : Factor).den ∧
      (1 : Int) <
        ((visCount [AnsiTok.vis 'a', AnsiTok.csi ['3', '1'] 'm',
          AnsiTok.vis 'b'] : Nat) : Int)) ∧
    (stripANSI (dimANSIColors (renderToks [AnsiTok.vis 'a',
          AnsiTok.csi ['3', '1'] 'm', AnsiTok.vis 'b']) ⟨7, 20⟩) =
        stripANSI (renderToks [AnsiTok.vis 'a', AnsiTok.csi ['3', '1'] 'm',
          AnsiTok.vis 'b']) ∧
      stripANSI (applyHighlightToLine (renderToks [AnsiTok.vis 'a',
          AnsiTok.csi ['3', '1'] 'm', AnsiTok.vis 'b']) 0 1 ⟨7, 20⟩) =
        stripANSI (renderToks [AnsiTok.vis 'a', AnsiTok.csi ['3', '1'] 'm',
          AnsiTok.vis 'b'])) :=
  ⟨⟨by decide, by decide, by decide, by decide, by decide⟩,
   ansi_transform_structure_preserving ⟨7, 20⟩ 0 1
     [AnsiTok.vis 'a', AnsiTok.csi ['3', '1'] 'm', AnsiTok.vis 'b']
     (by decide) (by decide) (by decide) (by decide) (by decide)⟩

end ATC
